import Mathlib

/-!
Verification development for the receive-side packet reassembly core of
oresat-libdxwifi (src/libdxwifi/receiver.c).

The source file is shallowly embedded below.  A captured frame is a list of
byte values together with its capture length (the length of the list); the
staging packet buffer is a total function from offsets to bytes; the sink
file descriptor is modelled by the list of bytes written to it so far.

Parts of the repository that receiver.c depends on but that are not among
the analysed sources (dxwifi.h constants, details/heap.h, details/crc32.h,
the ieee80211 header layouts) are modelled from the specification; each such
definition carries a doc comment saying so.  The embedding models the live
capture mode (the branch without DXWIFI_TESTS), in which a captured frame
carries a trailing 4-byte FCS.
-/

set_option maxRecDepth 1000000

namespace DxWifi


/-- Modelled from the spec: the compile-time protocol constants of dxwifi.h,
which is not among the analysed sources.  DXWIFI_TX_PAYLOAD_SIZE (the data
payload block size), DXWIFI_FRAME_CONTROL_SIZE (the control frame payload
size) and the two control sentinel byte values are kept abstract. -/
structure DxParams where
  payloadBlockSize : Nat
  controlFrameSize : Nat
  preambleByte : Nat
  eotByte : Nat
deriving Repr, DecidableEq

/-- Modelled from the spec: sizeof(ieee80211_hdr), the fixed-size 802.11
data-frame MAC header with three 6-byte address fields (2 bytes frame
control, 2 duration, 3 times 6 address bytes, 2 sequence control). -/
def macHeaderSize : Nat := 24

/-- IEEE80211_FCS_SIZE: the 4-byte frame check sequence trailing a frame. -/
def fcsSize : Nat := 4

/-- The receiver configuration fields consumed by the core (dxwifi_receiver).
The capture-source knobs (filter, snaplen, timeouts) are owned by the
external capture driver and are not part of the embedded state. -/
structure dxwifi_receiver where
  ordered : Bool
  add_noise : Bool
  noise_value : Nat
  max_hamming_dist : Nat
  packet_buffer_size : Nat
  sender_addr : List Nat
deriving Repr

/-- dxwifi_control_frame_t. -/
inductive dxwifi_control_frame_t
  | NONE
  | PREAMBLE
  | EOT
  | UNKNOWN
deriving Repr, DecidableEq

/-- Terminal capture state recorded in the statistics. -/
inductive dxwifi_capture_state
  | NORMAL
  | TIMED_OUT
  | ERROR
  | DEACTIVATED
deriving Repr, DecidableEq

/-- Read the byte at index i of a frame (reads past the captured data give
the zero bytes of the surrounding calloc-initialised capture arena). -/
def byteAt (f : List Nat) (i : Nat) : Nat := f.getD i 0

/-- Little-endian 16-bit read at offset o, as done by a uint16_t load. -/
def le16 (f : List Nat) (o : Nat) : Nat := byteAt f o + 256 * byteAt f (o + 1)

/-- Little-endian 32-bit read at offset o, as done by a uint32_t load. -/
def le32 (f : List Nat) (o : Nat) : Nat :=
  byteAt f o + 256 * (byteAt f (o + 1) + 256 * (byteAt f (o + 2) + 256 * byteAt f (o + 3)))

/-- Big-endian 32-bit read at offset o: an ntohl of a uint32_t load. -/
def be32 (f : List Nat) (o : Nat) : Nat :=
  byteAt f (o + 3) + 256 * (byteAt f (o + 2) + 256 * (byteAt f (o + 1) + 256 * byteAt f o))

/-- pkt_stats->caplen: the captured length of the frame. -/
def caplen (f : List Nat) : Nat := f.length

/-- rtap_hdr->it_len: the radiotap header length field, a little-endian
uint16_t at offset 2 of the radiotap header (the header layout is the
standard self-describing radiotap layout; the struct itself is external). -/
def itLen (f : List Nat) : Nat := le16 f 2

/-- Offset of the payload region: radiotap header plus MAC header. -/
def payloadStart (f : List Nat) : Nat := itLen f + macHeaderSize

/-- The payload length computed by both check_frame_control and
process_frame in live mode: caplen - it_len - sizeof(ieee80211_hdr) -
IEEE80211_FCS_SIZE, carried out in untruncated integers. -/
def payload_size (f : List Nat) : Int :=
  (caplen f : Int) - (itLen f : Int) - (macHeaderSize : Int) - (fcsSize : Int)

/-- The slice of len bytes of a frame starting at offset start. -/
def bytesAt (f : List Nat) (start len : Nat) : List Nat :=
  (List.range len).map (fun i => byteAt f (start + i))

/-- Read len bytes of the staging packet buffer starting at offset start. -/
def memRead (buf : Nat → Nat) (start len : Nat) : List Nat :=
  (List.range len).map (fun i => buf (start + i))

/-- memcpy of a byte list into the staging packet buffer at offset start. -/
def memWrite (buf : Nat → Nat) (start : Nat) (data : List Nat) : Nat → Nat :=
  fun j => if start ≤ j ∧ j < start + data.length then data.getD (j - start) 0 else buf j

/-- Number of set bits among the low w bits of a natural number. -/
def popCountW (w n : Nat) : Nat := (List.range w).countP (fun i => n.testBit i)

/-- Modelled from the spec: hamming_dist32 from details/crc32.h, which is not
among the analysed sources; the spec defines Hamming distance as the
bit-count difference of two equal-length bitstrings, here of two uint32_t
values. -/
def hamming_dist32 (x y : Nat) : Nat := popCountW 32 (Nat.xor x y)

/-- Conversion of a value to the int32_t it becomes on assignment
(two's complement wrap-around). -/
def toInt32 (n : Nat) : Int :=
  if n % 2 ^ 32 < 2 ^ 31 then (n % 2 ^ 32 : Int) else (n % 2 ^ 32 : Int) - 2 ^ 32

/-- extract_frame_number: ntohl of the uint32_t at offset 2 of the addr1
field of the MAC header (addr1 itself is at offset 4 of the MAC header). -/
def extract_frame_number (f : List Nat) : Nat := be32 f (itLen f + 4 + 2)

/-- verify_sender: each of addr1 (MAC offset 4), addr2 (offset 10) and addr3
(offset 16) is split into a uint32_t and a uint16_t, compared against the
same split of the expected 6-byte address by summed Hamming distance, and
the frame is accepted if any of the three distances is under the
threshold. -/
def verify_sender (f expected : List Nat) (threshold : Nat) : Bool :=
  let m := itLen f
  let expected_top := le32 expected 0
  let expected_bottom := le16 expected 4
  let addr1_dist := hamming_dist32 (le32 f (m + 4)) expected_top
                  + hamming_dist32 (le16 f (m + 8)) expected_bottom
  let addr2_dist := hamming_dist32 (le32 f (m + 10)) expected_top
                  + hamming_dist32 (le16 f (m + 14)) expected_bottom
  let addr3_dist := hamming_dist32 (le32 f (m + 16)) expected_top
                  + hamming_dist32 (le16 f (m + 20)) expected_bottom
  decide (addr1_dist < threshold) || decide (addr2_dist < threshold)
    || decide (addr3_dist < threshold)

/-- Accumulators of the counting loop in check_frame_control. -/
structure ControlCounts where
  preamble : Nat
  eot : Nat
deriving Repr, DecidableEq

/-- The counting loop of check_frame_control: a switch on each byte of the
given payload slice, counting PREAMBLE and EOT sentinel bytes (the case
labels of the switch are distinct byte constants). -/
def count_control_bytes (P : DxParams) (payload : List Nat) : ControlCounts :=
  payload.foldl
    (fun acc b =>
      if b = P.preambleByte then { acc with preamble := acc.preamble + 1 }
      else if b = P.eotByte then { acc with eot := acc.eot + 1 }
      else acc)
    ⟨0, 0⟩

/-- The check_threshold value 0.66 passed by process_frame, modelled as the
exact rational it denotes (the C code compares in floating point; the
comparison is embedded exactly over the rationals). -/
def dxwifi_check_threshold : ℚ := 33 / 50

/-- check_frame_control: classify a captured frame by its computed payload
size; for a control-sized payload, count sentinel bytes over the first
DXWIFI_TX_PAYLOAD_SIZE bytes of the payload region and majority-vote. -/
def check_frame_control (P : DxParams) (f : List Nat) (check_threshold : ℚ) :
    dxwifi_control_frame_t :=
  let ps : Int := payload_size f
  if ps = (P.controlFrameSize : Int) then
    let counts := count_control_bytes P (bytesAt f (payloadStart f) P.payloadBlockSize)
    if ((counts.eot : ℚ) / (ps : ℚ)) > check_threshold then .EOT
    else if ((counts.preamble : ℚ) / (ps : ℚ)) > check_threshold then .PREAMBLE
    else .UNKNOWN
  else if ps ≠ (P.payloadBlockSize : Int) then .UNKNOWN
  else .NONE

/-- Modelled from the spec: a node of the packet heap.  The data pointer
into the staging packet buffer is modelled as the offset it points to. -/
structure packet_heap_node where
  frame_number : Int
  data : Nat
  crc_valid : Bool
deriving Repr, DecidableEq

/-- Capture statistics (dxwifi_rx_stats).  receiver.h is not among the
analysed sources; the counters are modelled from the spec, with
total_blocks_lost a signed integer since the signed int missing_blocks is
added to it.  The radiotap decode of the last data frame is modelled
abstractly by the raw bytes it was parsed from (the radiotap iterator is an
external library), and the pkt_stats copy by the last caplen. -/
structure dxwifi_rx_stats where
  num_packets_processed : Nat := 0
  packets_dropped : Nat := 0
  bad_crcs : Nat := 0
  total_caplen : Nat := 0
  total_payload_size : Int := 0
  total_writelen : Nat := 0
  total_noise_added : Nat := 0
  total_blocks_lost : Int := 0
  capture_state : dxwifi_capture_state := .NORMAL
  rtap_src : List Nat := []
  last_caplen : Nat := 0
deriving Repr, DecidableEq

/-- The frame controller.  The packet heap is modelled from the spec
(details/heap.h is not among the analysed sources): a preallocated binary
min-heap keyed by frame number with ties broken by insertion order, here
represented by the list of live nodes in insertion order.  The staging
packet buffer is a total function from offsets to bytes (calloc gives the
all-zero function), and the sink descriptor by the list of bytes written. -/
structure frame_controller where
  packet_heap : List packet_heap_node
  packet_buffer : Nat → Nat
  pb_size : Nat
  index : Nat
  eot_reached : Bool
  preamble_recv : Bool
  end_capture : Bool
  rx_stats : dxwifi_rx_stats
  sink : List Nat

/-- init_frame_controller: zeroed counters, NORMAL capture state, empty
heap, zeroed staging buffer. -/
def init_frame_controller (rx : dxwifi_receiver) : frame_controller where
  packet_heap := []
  packet_buffer := fun _ => 0
  pb_size := rx.packet_buffer_size
  index := 0
  eot_reached := false
  preamble_recv := false
  end_capture := false
  rx_stats := {}
  sink := []

/-- Modelled from the spec: heap_pop of details/heap.h.  The heap is a
min-heap on frame numbers, ties broken by insertion order, and pop reports
false (here: none) on an empty heap. -/
def heap_pop_min :
    List packet_heap_node → Option (packet_heap_node × List packet_heap_node)
  | [] => none
  | a :: l =>
    match heap_pop_min l with
    | none => some (a, [])
    | some (m, r) =>
      if a.frame_number ≤ m.frame_number then some (a, l) else some (m, a :: r)

/-- The read of ((packet_heap_node*)fc->packet_heap.tree)->frame_number at
the top of dump_packet_buffer: the root slot of the min-heap holds a node
of minimal frame number when the heap is nonempty; for an empty heap the
slot holds whatever bytes the calloc-initialised arena holds (the value is
then never used by the pop loop). -/
def heap_root_frame (h : List packet_heap_node) : Int :=
  match heap_pop_min h with
  | some (m, _) => m.frame_number
  | none => 0

/-- One payload-block-sized buffer filled with the noise value. -/
def noise_block (P : DxParams) (v : Nat) : List Nat :=
  List.replicate P.payloadBlockSize v

/-- The bytes written by runs successive writes of a noise block. -/
def noise_run (P : DxParams) (v runs : Nat) : List Nat :=
  (List.replicate runs (noise_block P v)).flatten

/-- handle_frame_control: a preamble after processed packets ends the
capture; a first preamble records the uplink; EOT only records itself. -/
def handle_frame_control (fc : frame_controller) :
    dxwifi_control_frame_t → frame_controller
  | .PREAMBLE =>
    if fc.rx_stats.num_packets_processed > 0 then
      { fc with end_capture := true, preamble_recv := true }
    else
      { fc with preamble_recv := true }
  | .EOT => { fc with eot_reached := true }
  | _ => fc

/-- The pop loop of dump_packet_buffer.  The fuel argument bounds the number
of iterations; it is instantiated with the heap size, which the loop
decreases by one per pop.  Writes to the sink are complete (the spec treats
a short write as a diagnostic only), so each write returns its size. -/
def dump_go (P : DxParams) (rx : dxwifi_receiver) (buf : Nat → Nat) :
    Nat → List packet_heap_node → Int → dxwifi_rx_stats → List Nat →
    dxwifi_rx_stats × List Nat
  | 0, _, _, stats, sink => (stats, sink)
  | fuel + 1, heap, expected, stats, sink =>
    match heap_pop_min heap with
    | none => (stats, sink)
    | some (node, rest) =>
      let step :=
        if rx.ordered = true ∧ expected ≠ node.frame_number then
          let missing : Int := node.frame_number - expected
          let noisy :=
            if rx.add_noise = true then
              ({ stats with total_noise_added :=
                   stats.total_noise_added + missing.toNat * P.payloadBlockSize },
               sink ++ noise_run P rx.noise_value missing.toNat)
            else (stats, sink)
          ({ noisy.1 with total_blocks_lost := noisy.1.total_blocks_lost + missing },
           noisy.2)
        else (stats, sink)
      dump_go P rx buf fuel rest (node.frame_number + 1)
        { step.1 with total_writelen := step.1.total_writelen + P.payloadBlockSize }
        (step.2 ++ memRead buf node.data P.payloadBlockSize)

/-- dump_packet_buffer: read the root frame number, pop every node in heap
order writing gaps and payloads to the sink, and reset the write index. -/
def dump_packet_buffer (P : DxParams) (rx : dxwifi_receiver)
    (fc : frame_controller) : frame_controller :=
  let expected := heap_root_frame fc.packet_heap
  let out := dump_go P rx fc.packet_buffer fc.packet_heap.length fc.packet_heap
    expected fc.rx_stats fc.sink
  { fc with packet_heap := [], index := 0, rx_stats := out.1, sink := out.2 }

/-- The payload slice copied into the staging buffer for a data frame. -/
def payload_bytes (P : DxParams) (f : List Nat) : List Nat :=
  bytesAt f (payloadStart f) P.payloadBlockSize

/-- The crc32 input of process_frame: the MAC header plus the payload,
DXWIFI_TX_PAYLOAD_SIZE + sizeof(ieee80211_hdr) bytes from the MAC header
start. -/
def crc_bytes (P : DxParams) (f : List Nat) : List Nat :=
  bytesAt f (itLen f) (P.payloadBlockSize + macHeaderSize)

/-- The reversed CRC-32 polynomial. -/
def crc32_poly : Nat := 0xEDB88320

/-- One bit step of the bytewise CRC-32. -/
def crc32_bit (c : Nat) : Nat :=
  if c % 2 = 1 then Nat.xor (c / 2) crc32_poly else c / 2

/-- One byte step of CRC-32. -/
def crc32_byte (c b : Nat) : Nat := crc32_bit^[8] (Nat.xor c (b % 256))

/-- Modelled from the spec: crc32 of details/crc32.h, which is not among the
analysed sources; the spec names it CRC-32, the standard reflected CRC-32
with initial value and final xor 0xFFFFFFFF. -/
def crc32 (data : List Nat) : Nat :=
  Nat.xor (data.foldl crc32_byte 0xFFFFFFFF) 0xFFFFFFFF

/-- process_frame: the per-frame capture callback.  Sender-rejected frames
only count a drop; unknown frames are only logged; control frames go to the
control handler; data frames are staged into the packet buffer and heap
after an optional buffer-full flush, and the statistics are updated.  The
bad_crcs update reproduces the source expression (bad_crcs is incremented
iff the recorded crc_valid flag is true), and the crc comparison reproduces
the one-byte dereference of the fcs pointer. -/
def process_frame (P : DxParams) (rx : dxwifi_receiver) (fc : frame_controller)
    (f : List Nat) : frame_controller :=
  if verify_sender f rx.sender_addr rx.max_hamming_dist then
    let ctrl := check_frame_control P f dxwifi_check_threshold
    if ctrl = .UNKNOWN then fc
    else if ctrl ≠ .NONE then handle_frame_control fc ctrl
    else
      let fc0 := { fc with rx_stats := { fc.rx_stats with rtap_src := f } }
      let ps : Int := payload_size f
      if ps ≠ (P.payloadBlockSize : Int) then fc0
      else
        let fc1 :=
          if fc0.index + P.payloadBlockSize ≥ fc0.pb_size then
            dump_packet_buffer P rx fc0
          else fc0
        let write_idx := fc1.index
        let frame_number : Int :=
          if rx.ordered then toInt32 (extract_frame_number f)
          else toInt32 fc1.rx_stats.num_packets_processed
        let crc := crc32 (crc_bytes P f)
        let crc_valid : Bool := decide (crc = byteAt f (caplen f - fcsSize))
        let node : packet_heap_node :=
          { frame_number := frame_number, data := write_idx, crc_valid := crc_valid }
        { fc1 with
          packet_heap := fc1.packet_heap ++ [node]
          packet_buffer := memWrite fc1.packet_buffer write_idx (payload_bytes P f)
          index := fc1.index + caplen f
          rx_stats := { fc1.rx_stats with
            total_caplen := fc1.rx_stats.total_caplen + caplen f
            total_payload_size := fc1.rx_stats.total_payload_size + ps
            num_packets_processed := fc1.rx_stats.num_packets_processed + 1
            bad_crcs := fc1.rx_stats.bad_crcs + (if crc_valid then 1 else 0)
            last_caplen := caplen f } }
  else
    { fc with rx_stats :=
        { fc.rx_stats with packets_dropped := fc.rx_stats.packets_dropped + 1 } }

/-- One outcome of the poll at the top of the capture loop: a timeout, a
poll error while the receiver is still activated, a poll error raced by an
external receiver_stop_capture (which has cleared the activated flag), or a
dispatched batch of captured frames. -/
inductive capture_event
  | timeout
  | poll_err
  | ext_stop
  | batch (frames : List (List Nat))

/-- The capture loop state: the frame controller plus the activated flag of
the receiver. -/
structure run_state where
  fc : frame_controller
  activated : Bool

/-- One iteration body of the capture loop for a given poll outcome.  A
dispatched batch is processed to completion (dispatch delivers every frame
of the batch to process_frame before returning). -/
def loop_step (P : DxParams) (rx : dxwifi_receiver) (s : run_state) :
    capture_event → run_state
  | .timeout =>
    { s with
      activated := false
      fc := { s.fc with rx_stats :=
        { s.fc.rx_stats with capture_state := .TIMED_OUT } } }
  | .poll_err =>
    { s with fc := { s.fc with rx_stats :=
        { s.fc.rx_stats with capture_state := .ERROR } } }
  | .ext_stop =>
    { s with
      activated := false
      fc := { s.fc with rx_stats :=
        { s.fc.rx_stats with capture_state := .DEACTIVATED } } }
  | .batch fs => { s with fc := fs.foldl (process_frame P rx) s.fc }

/-- The capture loop: while the receiver is activated and the controller has
not flagged end of capture, consume the next poll outcome. -/
def receiver_loop (P : DxParams) (rx : dxwifi_receiver) :
    run_state → List capture_event → run_state
  | s, [] => s
  | s, e :: es =>
    if s.activated = true ∧ s.fc.end_capture = false then
      receiver_loop P rx (loop_step P rx s e) es
    else s

/-- receiver_activate_capture: run the capture loop from a freshly
initialised frame controller, then flush whatever is left in the buffer
with one unconditional dump_packet_buffer. -/
def receiver_activate_capture (P : DxParams) (rx : dxwifi_receiver)
    (events : List capture_event) : frame_controller :=
  let s := receiver_loop P rx { fc := init_frame_controller rx, activated := true } events
  dump_packet_buffer P rx s.fc

/-!
Specification-side definitions.  The following definitions restate, in the
words of the specification, what a capture is supposed to produce: the data
frames received within each flush generation, the stable sort of a
generation by frame number, and the rendering of a sorted generation into
sink bytes with noise runs at the gaps.  They are compared with the
embedded implementation by the refinement theorems below.
-/

/-- A received data frame as the spec sees it: its (wrapped) frame number
and its payload block. -/
abbrev spec_frame := Int × List Nat

/-- Spec-side capture state: the flush generations already emitted in flush
order, the current generation in arrival order, the staging write index,
and the controller flags and processed count that drive control flow. -/
structure spec_state where
  gens : List (List spec_frame)
  cur : List spec_frame
  index : Nat
  processed : Nat
  preamble_recv : Bool
  eot_reached : Bool
  end_capture : Bool
deriving Repr

/-- The spec ordering of a generation: sorted by ascending frame number,
ties broken by insertion order (a stable insertion sort). -/
def specSortGen (gen : List spec_frame) : List spec_frame :=
  List.insertionSort (fun a b => a.1 ≤ b.1) gen

/-- The result of rendering one sorted generation: the sink bytes, the noise
byte count, the signed lost-block count and the payload write length. -/
structure flush_out where
  bytes : List Nat
  noise : Nat
  lost : Int
  wlen : Nat
deriving Repr, DecidableEq

/-- Spec-side walk over one sorted generation: a gap is charged whenever the
next frame number differs from the expected one, noise runs are emitted for
positive gaps when configured, and each payload is written in order. -/
def spec_flush_go (P : DxParams) (rx : dxwifi_receiver) :
    Int → List spec_frame → flush_out
  | _, [] => { bytes := [], noise := 0, lost := 0, wlen := 0 }
  | e, (k, p) :: rest =>
    let o := spec_flush_go P rx (k + 1) rest
    let gapBytes : List Nat :=
      if rx.ordered = true ∧ e ≠ k ∧ rx.add_noise = true then
        noise_run P rx.noise_value (k - e).toNat
      else []
    let gapNoise : Nat :=
      if rx.ordered = true ∧ e ≠ k ∧ rx.add_noise = true then
        (k - e).toNat * P.payloadBlockSize
      else 0
    let gapLost : Int := if rx.ordered = true ∧ e ≠ k then k - e else 0
    { bytes := gapBytes ++ p ++ o.bytes
      noise := gapNoise + o.noise
      lost := gapLost + o.lost
      wlen := P.payloadBlockSize + o.wlen }

/-- Spec-side rendering of a whole generation: sort it, start the expected
frame number at the minimum frame number (the heap root before popping),
and walk. -/
def spec_flush (P : DxParams) (rx : dxwifi_receiver) (gen : List spec_frame) :
    flush_out :=
  match specSortGen gen with
  | [] => { bytes := [], noise := 0, lost := 0, wlen := 0 }
  | (k, p) :: rest => spec_flush_go P rx k ((k, p) :: rest)

/-- The spec-side sink contents after a list of flushed generations. -/
def spec_sink (P : DxParams) (rx : dxwifi_receiver)
    (gens : List (List spec_frame)) : List Nat :=
  (gens.map (fun g => (spec_flush P rx g).bytes)).flatten

/-- Spec-side staging of one accepted data frame: flush the current
generation first when the staging buffer is full, then append the frame to
the current generation. -/
def spec_stage (P : DxParams) (rx : dxwifi_receiver) (s : spec_state)
    (f : List Nat) : spec_state :=
  let s1 :=
    if s.index + P.payloadBlockSize ≥ rx.packet_buffer_size then
      { s with gens := s.gens ++ [s.cur], cur := [], index := 0 }
    else s
  let fn : Int :=
    if rx.ordered then toInt32 (extract_frame_number f) else toInt32 s1.processed
  { s1 with
    cur := s1.cur ++ [(fn, payload_bytes P f)]
    index := s1.index + caplen f
    processed := s1.processed + 1 }

/-- Spec-side account of one captured frame, mirroring the prose of the
spec: rejected and unknown frames change nothing tracked here, control
frames drive the flags, and data frames of the expected payload size are
staged. -/
def spec_process (P : DxParams) (rx : dxwifi_receiver) (s : spec_state)
    (f : List Nat) : spec_state :=
  if verify_sender f rx.sender_addr rx.max_hamming_dist then
    let ctrl := check_frame_control P f dxwifi_check_threshold
    if ctrl = .UNKNOWN then s
    else if ctrl = .PREAMBLE then
      if s.processed > 0 then { s with end_capture := true, preamble_recv := true }
      else { s with preamble_recv := true }
    else if ctrl = .EOT then { s with eot_reached := true }
    else if payload_size f ≠ (P.payloadBlockSize : Int) then s
    else spec_stage P rx s f
  else s

/-- Spec-side capture loop state. -/
structure spec_run_state where
  s : spec_state
  activated : Bool

/-- Spec-side mirror of one capture loop iteration body. -/
def spec_loop_step (P : DxParams) (rx : dxwifi_receiver) (r : spec_run_state) :
    capture_event → spec_run_state
  | .timeout => { r with activated := false }
  | .poll_err => r
  | .ext_stop => { r with activated := false }
  | .batch fs => { r with s := fs.foldl (spec_process P rx) r.s }

/-- Spec-side mirror of the capture loop. -/
def spec_receiver_loop (P : DxParams) (rx : dxwifi_receiver) :
    spec_run_state → List capture_event → spec_run_state
  | r, [] => r
  | r, e :: es =>
    if r.activated = true ∧ r.s.end_capture = false then
      spec_receiver_loop P rx (spec_loop_step P rx r e) es
    else r

/-- The initial spec-side state. -/
def spec_init : spec_state where
  gens := []
  cur := []
  index := 0
  processed := 0
  preamble_recv := false
  eot_reached := false
  end_capture := false

/-- Spec-side account of a whole capture: run the loop, then flush the final
generation. -/
def spec_capture (P : DxParams) (rx : dxwifi_receiver)
    (events : List capture_event) : spec_state :=
  let r := spec_receiver_loop P rx { s := spec_init, activated := true } events
  { r.s with gens := r.s.gens ++ [r.s.cur], cur := [], index := 0 }

/-- Node ordering used by the heap: the ordering predicate
order_by_frame_number_desc of the source. -/
def node_le (a b : packet_heap_node) : Prop := a.frame_number ≤ b.frame_number

instance : DecidableRel node_le := fun a b => Int.decLe a.frame_number b.frame_number

/-- The stable sort of heap nodes by frame number. -/
def nodeSort (l : List packet_heap_node) : List packet_heap_node :=
  List.insertionSort node_le l

/-- The spec-side view of one staged heap node: its frame number and the
payload slice of the staging buffer it points at. -/
def node_pair (P : DxParams) (buf : Nat → Nat) (n : packet_heap_node) : spec_frame :=
  (n.frame_number, memRead buf n.data P.payloadBlockSize)

/-- The spec-side view of the current generation held by a controller. -/
def absGen (P : DxParams) (fc : frame_controller) : List spec_frame :=
  fc.packet_heap.map (node_pair P fc.packet_buffer)


/-- The refinement invariant tying an implementation frame controller to the
spec-side capture state: matching current generation (with each staged
payload read back from the staging buffer), matching write index, processed
count and flags, disjointness of the staged slices from the write frontier,
and sink and gap statistics obtained from the flushed generations. -/
structure SimInv (P : DxParams) (rx : dxwifi_receiver)
    (fc : frame_controller) (s : spec_state) : Prop where
  cur_eq : absGen P fc = s.cur
  index_eq : fc.index = s.index
  processed_eq : fc.rx_stats.num_packets_processed = s.processed
  pre_eq : fc.preamble_recv = s.preamble_recv
  eot_eq : fc.eot_reached = s.eot_reached
  end_eq : fc.end_capture = s.end_capture
  pb_eq : fc.pb_size = rx.packet_buffer_size
  disj : ∀ n ∈ fc.packet_heap, n.data + P.payloadBlockSize ≤ fc.index
  sink_eq : fc.sink = spec_sink P rx s.gens
  noise_eq : fc.rx_stats.total_noise_added
    = (s.gens.map (fun g => (spec_flush P rx g).noise)).sum
  lost_eq : fc.rx_stats.total_blocks_lost
    = (s.gens.map (fun g => (spec_flush P rx g).lost)).sum


instance : IsTotal spec_frame (fun a b => a.1 ≤ b.1) :=
  ⟨fun a b => le_total a.1 b.1⟩

instance : IsTrans spec_frame (fun a b => a.1 ≤ b.1) :=
  ⟨fun _ _ _ hab hbc => le_trans hab hbc⟩


/-- The bitwise Hamming distance between two byte strings: the sum over byte
positions of the number of differing bits. -/
def hammingDistBytes (xs ys : List Nat) : Nat :=
  ((xs.zip ys).map (fun ab => popCountW 8 (Nat.xor ab.1 ab.2))).sum

/-- Concrete protocol parameters for the executable checks: 5-byte payload
blocks, 2-byte control frames, sentinel bytes 0xAA and 0xFF. -/
def Pw : DxParams where
  payloadBlockSize := 5
  controlFrameSize := 2
  preambleByte := 0xAA
  eotByte := 0xFF

/-- Concrete receiver configuration: ordered capture without noise. -/
def rxw_plain : dxwifi_receiver where
  ordered := true
  add_noise := false
  noise_value := 0xEE
  max_hamming_dist := 1
  packet_buffer_size := 100
  sender_addr := [5, 5, 5, 5, 5, 5]

/-- The same configuration with noise substitution enabled. -/
def rxw_noise : dxwifi_receiver := { rxw_plain with add_noise := true }

/-- A concrete captured data frame: an 8-byte radiotap header, a 24-byte MAC
header whose addr1 carries the frame number in its last four bytes and whose
addr2 matches the expected sender address, the payload, and a 4-byte FCS. -/
def wframe (fn : Nat) (payload fcs : List Nat) : List Nat :=
  [0, 0, 8, 0, 0, 0, 0, 0] ++
  ([0, 0] ++ [0, 0] ++ [0, 0, 0, 0, 0, fn] ++ [5, 5, 5, 5, 5, 5] ++
   [9, 9, 9, 9, 9, 9] ++ [0, 0]) ++ payload ++ fcs

/-- A 5-byte payload of a repeated byte. -/
def wpayload (b : Nat) : List Nat := List.replicate 5 b

/-- The concrete data frame number n carrying payload byte 16 + n. -/
def wdata (n : Nat) : List Nat := wframe n (wpayload (16 + n)) [0, 0, 0, 0]

/-- A concrete data frame whose FCS field is all zeroes, which does not match
the CRC-32 of its MAC header and payload. -/
def fC3 : List Nat := wframe 7 (wpayload 0x11) [0, 0, 0, 0]

/-- The same data frame with its FCS field holding the little-endian bytes of
the CRC-32 of its MAC header and payload. -/
def fC4 : List Nat := wframe 7 (wpayload 0x11) [191, 162, 147, 182]

/-- A captured frame whose three MAC address fields all differ from the
expected sender address in many bits. -/
def frej : List Nat :=
  [0, 0, 8, 0, 0, 0, 0, 0] ++
  ([0, 0] ++ [0, 0] ++ [0xFF, 0xFF, 0xFF, 0xFF, 0xFF, 0xFF] ++
   [0xFF, 0xFF, 0xFF, 0xFF, 0xFF, 0xFF] ++ [0xFF, 0xFF, 0xFF, 0xFF, 0xFF, 0xFF] ++
   [0, 0]) ++ [1, 2, 3, 4, 5] ++ [0, 0, 0, 0]

/-- An accepted frame whose payload size (3 bytes) is neither the data block
size nor the control frame size, so it classifies as UNKNOWN. -/
def funk : List Nat := wframe 1 [1, 2, 3] [0, 0, 0, 0]

/-- A frame controller that has already processed one packet. -/
def fcW1 : frame_controller :=
  { init_frame_controller rxw_plain with rx_stats := { num_packets_processed := 1 } }

/-- A capture loop state whose controller has flagged end of capture. -/
def sW : run_state :=
  { fc := { init_frame_controller rxw_plain with end_capture := true }, activated := true }

theorem heap_pop_min_eq_none {h : List packet_heap_node} :
    heap_pop_min h = none ↔ h = [] := by
  constructor
  · intro he
    cases h with
    | nil => rfl
    | cons a l =>
      exfalso
      cases hl : heap_pop_min l with
      | none => simp [heap_pop_min, hl] at he
      | some p =>
        rcases p with ⟨m, r⟩
        by_cases hle : a.frame_number ≤ m.frame_number <;>
          simp [heap_pop_min, hl, hle] at he
  · intro hh
    subst hh
    rfl

theorem heap_pop_min_length {h : List packet_heap_node} {m r} :
    heap_pop_min h = some (m, r) → r.length + 1 = h.length := by
  induction h generalizing m r with
  | nil => intro hp; simp [heap_pop_min] at hp
  | cons a l ih =>
    intro hp
    cases hl : heap_pop_min l with
    | none =>
      have : l = [] := heap_pop_min_eq_none.mp hl
      subst this
      simp [heap_pop_min] at hp
      obtain ⟨rfl, rfl⟩ := hp
      rfl
    | some p =>
      rcases p with ⟨m', r'⟩
      by_cases hle : a.frame_number ≤ m'.frame_number
      · simp [heap_pop_min, hl, hle] at hp
        obtain ⟨rfl, rfl⟩ := hp
        rfl
      · simp [heap_pop_min, hl, hle] at hp
        obtain ⟨rfl, rfl⟩ := hp
        have := ih hl
        simp only [List.length_cons]
        omega

theorem heap_pop_min_sort {h : List packet_heap_node} {m r} :
    heap_pop_min h = some (m, r) → nodeSort h = m :: nodeSort r := by
  induction h generalizing m r with
  | nil => intro hp; simp [heap_pop_min] at hp
  | cons a l ih =>
    intro hp
    cases hl : heap_pop_min l with
    | none =>
      have : l = [] := heap_pop_min_eq_none.mp hl
      subst this
      simp [heap_pop_min] at hp
      obtain ⟨rfl, rfl⟩ := hp
      rfl
    | some p =>
      rcases p with ⟨m', r'⟩
      have hsl : nodeSort l = m' :: nodeSort r' := ih hl
      by_cases hle : a.frame_number ≤ m'.frame_number
      · simp [heap_pop_min, hl, hle] at hp
        obtain ⟨rfl, rfl⟩ := hp
        show List.orderedInsert node_le a (nodeSort l) = a :: nodeSort l
        rw [hsl]
        simp [List.orderedInsert, node_le, hle]
      · simp [heap_pop_min, hl, hle] at hp
        obtain ⟨rfl, rfl⟩ := hp
        show List.orderedInsert node_le a (nodeSort l) = m' :: nodeSort (a :: r')
        rw [hsl]
        show List.orderedInsert node_le a (m' :: nodeSort r')
          = m' :: List.orderedInsert node_le a (nodeSort r')
        simp [List.orderedInsert, node_le, hle]

theorem insertionSort_map_pairs (P : DxParams) (buf : Nat → Nat)
    (l : List packet_heap_node) :
    specSortGen (l.map (node_pair P buf)) = (nodeSort l).map (node_pair P buf) := by
  induction l with
  | nil => rfl
  | cons a l ih =>
    show List.orderedInsert _ (node_pair P buf a) (specSortGen (l.map (node_pair P buf)))
      = (List.orderedInsert node_le a (nodeSort l)).map (node_pair P buf)
    rw [ih]
    generalize nodeSort l = t
    induction t with
    | nil => rfl
    | cons b t iht =>
      by_cases hb : a.frame_number ≤ b.frame_number
      · simp [List.orderedInsert, node_le, node_pair, hb]
      · simp [List.orderedInsert, node_le, node_pair, hb]
        exact iht


theorem memRead_length (buf : Nat → Nat) (start len : Nat) :
    (memRead buf start len).length = len := by
  simp [memRead]

theorem bytesAt_length (f : List Nat) (start len : Nat) :
    (bytesAt f start len).length = len := by
  simp [bytesAt]

theorem range_map_getD (l : List Nat) :
    (List.range l.length).map (fun i => l.getD i 0) = l := by
  induction l with
  | nil => rfl
  | cons a l ih =>
    rw [List.length_cons, List.range_succ_eq_map, List.map_cons, List.map_map]
    refine congrArg₂ List.cons rfl ?_
    calc (List.range l.length).map ((fun i => (a :: l).getD i 0) ∘ Nat.succ)
        = (List.range l.length).map (fun i => l.getD i 0) := by
          refine List.map_congr_left ?_
          intro i _
          simp
      _ = l := ih

theorem memRead_memWrite_below (buf : Nat → Nat) (start : Nat) (data : List Nat)
    (o len : Nat) (h : o + len ≤ start) :
    memRead (memWrite buf start data) o len = memRead buf o len := by
  unfold memRead memWrite
  refine List.map_congr_left ?_
  intro i hi
  have hilt : i < len := List.mem_range.mp hi
  have : ¬ (start ≤ o + i ∧ o + i < start + data.length) := by omega
  simp [this]

theorem memRead_memWrite_self (buf : Nat → Nat) (start : Nat) (data : List Nat) :
    memRead (memWrite buf start data) start data.length = data := by
  unfold memRead memWrite
  calc (List.range data.length).map
        (fun i => if start ≤ start + i ∧ start + i < start + data.length
                  then data.getD (start + i - start) 0 else buf (start + i))
      = (List.range data.length).map (fun i => data.getD i 0) := by
        refine List.map_congr_left ?_
        intro i hi
        have hilt : i < data.length := List.mem_range.mp hi
        have hc : start ≤ start + i ∧ start + i < start + data.length := by omega
        simp [hc]
    _ = data := range_map_getD data


theorem dump_go_spec (P : DxParams) (rx : dxwifi_receiver) (buf : Nat → Nat) :
    ∀ (fuel : Nat) (heap : List packet_heap_node), heap.length ≤ fuel →
    ∀ (e : Int) (stats : dxwifi_rx_stats) (sink : List Nat),
    dump_go P rx buf fuel heap e stats sink =
      ({ stats with
          total_noise_added := stats.total_noise_added
            + (spec_flush_go P rx e ((nodeSort heap).map (node_pair P buf))).noise
          total_blocks_lost := stats.total_blocks_lost
            + (spec_flush_go P rx e ((nodeSort heap).map (node_pair P buf))).lost
          total_writelen := stats.total_writelen
            + (spec_flush_go P rx e ((nodeSort heap).map (node_pair P buf))).wlen },
       sink ++ (spec_flush_go P rx e ((nodeSort heap).map (node_pair P buf))).bytes) := by
  intro fuel
  induction fuel with
  | zero =>
    intro heap hlen e stats sink
    have hnil : heap = [] := List.length_eq_zero.mp (Nat.le_zero.mp hlen)
    subst hnil
    show (stats, sink) = _
    simp [nodeSort, List.insertionSort, spec_flush_go]
  | succ fuel ih =>
    intro heap hlen e stats sink
    cases hp : heap_pop_min heap with
    | none =>
      have hnil : heap = [] := heap_pop_min_eq_none.mp hp
      subst hnil
      show (stats, sink) = _
      simp [nodeSort, List.insertionSort, spec_flush_go]
    | some p =>
      rcases p with ⟨m, rest⟩
      have hsort := heap_pop_min_sort hp
      have hlen2 : rest.length ≤ fuel := by
        have := heap_pop_min_length hp
        omega
      rw [hsort, List.map_cons]
      unfold dump_go
      simp only [hp]
      rw [ih rest hlen2]
      by_cases hord : rx.ordered = true
      · by_cases hne : e ≠ m.frame_number
        · by_cases hnoise : rx.add_noise = true
          · simp only [spec_flush_go]
            simp [node_pair, hord, hne, hnoise, List.append_assoc,
              Prod.ext_iff, dxwifi_rx_stats.mk.injEq]
            repeat' apply And.intro
            all_goals omega
          · simp only [spec_flush_go]
            simp [node_pair, hord, hne, hnoise, List.append_assoc,
              Prod.ext_iff, dxwifi_rx_stats.mk.injEq]
            repeat' apply And.intro
            all_goals omega
        · simp only [spec_flush_go]
          simp [node_pair, hord, hne, List.append_assoc,
            Prod.ext_iff, dxwifi_rx_stats.mk.injEq]
          all_goals omega
      · simp only [spec_flush_go]
        simp [node_pair, hord, List.append_assoc,
          Prod.ext_iff, dxwifi_rx_stats.mk.injEq]
        all_goals omega


theorem spec_flush_abs (P : DxParams) (rx : dxwifi_receiver)
    (heap : List packet_heap_node) (buf : Nat → Nat) :
    spec_flush P rx (heap.map (node_pair P buf)) =
      spec_flush_go P rx (heap_root_frame heap)
        ((nodeSort heap).map (node_pair P buf)) := by
  cases hp : heap_pop_min heap with
  | none =>
    have hnil : heap = [] := heap_pop_min_eq_none.mp hp
    subst hnil
    rfl
  | some p =>
    rcases p with ⟨m, rest⟩
    have hsort := heap_pop_min_sort hp
    unfold spec_flush
    rw [insertionSort_map_pairs P buf heap, hsort, List.map_cons]
    show spec_flush_go P rx (node_pair P buf m).1 _ = _
    rw [heap_root_frame, hp]
    rfl

theorem dump_packet_buffer_spec (P : DxParams) (rx : dxwifi_receiver)
    (fc : frame_controller) :
    dump_packet_buffer P rx fc =
      { fc with
        packet_heap := []
        index := 0
        rx_stats := { fc.rx_stats with
          total_noise_added := fc.rx_stats.total_noise_added
            + (spec_flush P rx (absGen P fc)).noise
          total_blocks_lost := fc.rx_stats.total_blocks_lost
            + (spec_flush P rx (absGen P fc)).lost
          total_writelen := fc.rx_stats.total_writelen
            + (spec_flush P rx (absGen P fc)).wlen }
        sink := fc.sink ++ (spec_flush P rx (absGen P fc)).bytes } := by
  simp only [dump_packet_buffer]
  rw [dump_go_spec P rx fc.packet_buffer fc.packet_heap.length fc.packet_heap le_rfl]
  rw [show absGen P fc = fc.packet_heap.map (node_pair P fc.packet_buffer) from rfl,
      spec_flush_abs P rx fc.packet_heap fc.packet_buffer]

theorem spec_sink_append (P : DxParams) (rx : dxwifi_receiver)
    (gens : List (List spec_frame)) (g : List spec_frame) :
    spec_sink P rx (gens ++ [g]) = spec_sink P rx gens ++ (spec_flush P rx g).bytes := by
  simp [spec_sink]

theorem dump_sim (P : DxParams) (rx : dxwifi_receiver)
    {fc : frame_controller} {s : spec_state} (h : SimInv P rx fc s) :
    SimInv P rx (dump_packet_buffer P rx fc)
      { s with gens := s.gens ++ [s.cur], cur := [], index := 0 } := by
  rw [dump_packet_buffer_spec]
  refine ⟨?_, ?_, ?_, ?_, ?_, ?_, ?_, ?_, ?_, ?_, ?_⟩
  · simp [absGen]
  · rfl
  · exact h.processed_eq
  · exact h.pre_eq
  · exact h.eot_eq
  · exact h.end_eq
  · exact h.pb_eq
  · intro n hn
    simp at hn
  · show fc.sink ++ (spec_flush P rx (absGen P fc)).bytes = _
    rw [h.sink_eq, h.cur_eq, spec_sink_append]
  · show fc.rx_stats.total_noise_added + (spec_flush P rx (absGen P fc)).noise = _
    rw [h.noise_eq, h.cur_eq]
    simp
  · show fc.rx_stats.total_blocks_lost + (spec_flush P rx (absGen P fc)).lost = _
    rw [h.lost_eq, h.cur_eq]
    simp


theorem caplen_of_payload_size (P : DxParams) {f : List Nat}
    (hps : payload_size f = (P.payloadBlockSize : Int)) :
    P.payloadBlockSize ≤ caplen f := by
  unfold payload_size at hps
  unfold macHeaderSize fcsSize at hps
  omega

theorem stage_sim (P : DxParams) (rx : dxwifi_receiver)
    {fc1 : frame_controller} {s1 : spec_state} (h1 : SimInv P rx fc1 s1)
    (f : List Nat) (hps : payload_size f = (P.payloadBlockSize : Int))
    (cv : Bool) :
    SimInv P rx
      { fc1 with
        packet_heap := fc1.packet_heap ++
          [{ frame_number := (if rx.ordered then toInt32 (extract_frame_number f)
                              else toInt32 fc1.rx_stats.num_packets_processed),
             data := fc1.index, crc_valid := cv }]
        packet_buffer := memWrite fc1.packet_buffer fc1.index (payload_bytes P f)
        index := fc1.index + caplen f
        rx_stats := { fc1.rx_stats with
          total_caplen := fc1.rx_stats.total_caplen + caplen f
          total_payload_size := fc1.rx_stats.total_payload_size + payload_size f
          num_packets_processed := fc1.rx_stats.num_packets_processed + 1
          bad_crcs := fc1.rx_stats.bad_crcs + (if cv then 1 else 0)
          last_caplen := caplen f } }
      { s1 with
        cur := s1.cur ++ [((if rx.ordered then toInt32 (extract_frame_number f)
                            else toInt32 s1.processed), payload_bytes P f)]
        index := s1.index + caplen f
        processed := s1.processed + 1 } := by
  have hlenp : (payload_bytes P f).length = P.payloadBlockSize := bytesAt_length f _ _
  refine ⟨?_, ?_, ?_, ?_, ?_, ?_, ?_, ?_, ?_, ?_, ?_⟩
  · show (fc1.packet_heap ++ [_]).map
      (node_pair P (memWrite fc1.packet_buffer fc1.index (payload_bytes P f))) = _
    rw [List.map_append]
    have hold : fc1.packet_heap.map
        (node_pair P (memWrite fc1.packet_buffer fc1.index (payload_bytes P f)))
        = fc1.packet_heap.map (node_pair P fc1.packet_buffer) := by
      refine List.map_congr_left ?_
      intro n hn
      unfold node_pair
      rw [← hlenp, memRead_memWrite_below fc1.packet_buffer fc1.index
        (payload_bytes P f) n.data (payload_bytes P f).length (by
          rw [hlenp]
          exact h1.disj n hn)]
    have hnew : node_pair P (memWrite fc1.packet_buffer fc1.index (payload_bytes P f))
        { frame_number := (if rx.ordered then toInt32 (extract_frame_number f)
                           else toInt32 fc1.rx_stats.num_packets_processed),
          data := fc1.index, crc_valid := cv }
        = ((if rx.ordered then toInt32 (extract_frame_number f)
            else toInt32 s1.processed), payload_bytes P f) := by
      unfold node_pair
      rw [h1.processed_eq]
      refine congrArg _ ?_
      rw [← hlenp]
      exact memRead_memWrite_self fc1.packet_buffer fc1.index (payload_bytes P f)
    rw [hold]
    simp only [List.map_cons, List.map_nil]
    rw [hnew]
    show absGen P fc1 ++ _ = _
    rw [h1.cur_eq]
  · show fc1.index + caplen f = s1.index + caplen f
    rw [h1.index_eq]
  · show fc1.rx_stats.num_packets_processed + 1 = s1.processed + 1
    rw [h1.processed_eq]
  · exact h1.pre_eq
  · exact h1.eot_eq
  · exact h1.end_eq
  · exact h1.pb_eq
  · intro n hn
    rw [List.mem_append] at hn
    rcases hn with hn | hn
    · have := h1.disj n hn
      show n.data + P.payloadBlockSize ≤ fc1.index + caplen f
      omega
    · rcases List.mem_singleton.mp hn with rfl
      show fc1.index + P.payloadBlockSize ≤ fc1.index + caplen f
      have := caplen_of_payload_size P hps
      omega
  · exact h1.sink_eq
  · exact h1.noise_eq
  · exact h1.lost_eq


theorem process_frame_sim (P : DxParams) (rx : dxwifi_receiver)
    {fc : frame_controller} {s : spec_state} (f : List Nat)
    (h : SimInv P rx fc s) :
    SimInv P rx (process_frame P rx fc f) (spec_process P rx s f) := by
  simp only [process_frame, spec_process]
  by_cases hv : verify_sender f rx.sender_addr rx.max_hamming_dist = true
  case neg =>
    rw [if_neg hv, if_neg hv]
    exact ⟨h.cur_eq, h.index_eq, h.processed_eq, h.pre_eq, h.eot_eq, h.end_eq,
      h.pb_eq, h.disj, h.sink_eq, h.noise_eq, h.lost_eq⟩
  case pos =>
    rw [if_pos hv, if_pos hv]
    cases hctrl : check_frame_control P f dxwifi_check_threshold with
    | UNKNOWN => exact h
    | PREAMBLE =>
      show SimInv P rx (handle_frame_control fc .PREAMBLE) _
      unfold handle_frame_control
      by_cases hproc : s.processed > 0
      · have hpi : fc.rx_stats.num_packets_processed > 0 := by
          rw [h.processed_eq]
          exact hproc
        rw [if_pos hpi, if_pos hproc]
        exact ⟨h.cur_eq, h.index_eq, h.processed_eq, rfl, h.eot_eq, rfl,
          h.pb_eq, h.disj, h.sink_eq, h.noise_eq, h.lost_eq⟩
      · have hpi : ¬ fc.rx_stats.num_packets_processed > 0 := by
          rw [h.processed_eq]
          exact hproc
        rw [if_neg hpi, if_neg hproc]
        exact ⟨h.cur_eq, h.index_eq, h.processed_eq, rfl, h.eot_eq, h.end_eq,
          h.pb_eq, h.disj, h.sink_eq, h.noise_eq, h.lost_eq⟩
    | EOT =>
      show SimInv P rx (handle_frame_control fc .EOT) _
      exact ⟨h.cur_eq, h.index_eq, h.processed_eq, h.pre_eq, rfl, h.end_eq,
        h.pb_eq, h.disj, h.sink_eq, h.noise_eq, h.lost_eq⟩
    | NONE =>
      by_cases hps : payload_size f = (P.payloadBlockSize : Int)
      case neg =>
        rw [if_pos hps, if_pos hps]
        exact ⟨h.cur_eq, h.index_eq, h.processed_eq, h.pre_eq, h.eot_eq, h.end_eq,
          h.pb_eq, h.disj, h.sink_eq, h.noise_eq, h.lost_eq⟩
      case pos =>
        have hpsn : ¬ payload_size f ≠ (P.payloadBlockSize : Int) := not_not_intro hps
        rw [if_neg hpsn, if_neg hpsn]
        have h0 : SimInv P rx
            { fc with rx_stats := { fc.rx_stats with rtap_src := f } } s :=
          ⟨h.cur_eq, h.index_eq, h.processed_eq, h.pre_eq, h.eot_eq, h.end_eq,
            h.pb_eq, h.disj, h.sink_eq, h.noise_eq, h.lost_eq⟩
        simp only [spec_stage]
        by_cases hfull : fc.index + P.payloadBlockSize ≥ fc.pb_size
        · have hfull2 : s.index + P.payloadBlockSize ≥ rx.packet_buffer_size := by
            rw [← h.index_eq, ← h.pb_eq]
            exact hfull
          rw [if_pos hfull, if_pos hfull2]
          have h1 := dump_sim P rx h0
          have h2 := stage_sim P rx h1 f hps
            (decide (crc32 (crc_bytes P f) = byteAt f (caplen f - fcsSize)))
          exact h2
        · have hfull2 : ¬ s.index + P.payloadBlockSize ≥ rx.packet_buffer_size := by
            rw [← h.index_eq, ← h.pb_eq]
            exact hfull
          rw [if_neg hfull, if_neg hfull2]
          have h2 := stage_sim P rx h0 f hps
            (decide (crc32 (crc_bytes P f) = byteAt f (caplen f - fcsSize)))
          exact h2


theorem fold_frames_sim (P : DxParams) (rx : dxwifi_receiver) :
    ∀ (fs : List (List Nat)) {fc : frame_controller} {s : spec_state},
    SimInv P rx fc s →
    SimInv P rx (fs.foldl (process_frame P rx) fc) (fs.foldl (spec_process P rx) s) := by
  intro fs
  induction fs with
  | nil => intro fc s h; exact h
  | cons f fs ih =>
    intro fc s h
    exact ih (process_frame_sim P rx f h)

theorem loop_step_sim (P : DxParams) (rx : dxwifi_receiver)
    {r1 : run_state} {r2 : spec_run_state}
    (hfc : SimInv P rx r1.fc r2.s) (ha : r1.activated = r2.activated)
    (e : capture_event) :
    SimInv P rx (loop_step P rx r1 e).fc (spec_loop_step P rx r2 e).s ∧
      (loop_step P rx r1 e).activated = (spec_loop_step P rx r2 e).activated := by
  cases e with
  | timeout =>
    refine ⟨⟨hfc.cur_eq, hfc.index_eq, hfc.processed_eq, hfc.pre_eq, hfc.eot_eq,
      hfc.end_eq, hfc.pb_eq, hfc.disj, hfc.sink_eq, hfc.noise_eq, hfc.lost_eq⟩, rfl⟩
  | poll_err =>
    refine ⟨⟨hfc.cur_eq, hfc.index_eq, hfc.processed_eq, hfc.pre_eq, hfc.eot_eq,
      hfc.end_eq, hfc.pb_eq, hfc.disj, hfc.sink_eq, hfc.noise_eq, hfc.lost_eq⟩, ha⟩
  | ext_stop =>
    refine ⟨⟨hfc.cur_eq, hfc.index_eq, hfc.processed_eq, hfc.pre_eq, hfc.eot_eq,
      hfc.end_eq, hfc.pb_eq, hfc.disj, hfc.sink_eq, hfc.noise_eq, hfc.lost_eq⟩, rfl⟩
  | batch fs =>
    exact ⟨fold_frames_sim P rx fs hfc, ha⟩

theorem receiver_loop_sim (P : DxParams) (rx : dxwifi_receiver) :
    ∀ (events : List capture_event) (r1 : run_state) (r2 : spec_run_state),
    SimInv P rx r1.fc r2.s → r1.activated = r2.activated →
    SimInv P rx (receiver_loop P rx r1 events).fc
      (spec_receiver_loop P rx r2 events).s := by
  intro events
  induction events with
  | nil => intro r1 r2 h ha; exact h
  | cons e es ih =>
    intro r1 r2 h ha
    show SimInv P rx
      (if r1.activated = true ∧ r1.fc.end_capture = false then
        receiver_loop P rx (loop_step P rx r1 e) es else r1).fc
      (if r2.activated = true ∧ r2.s.end_capture = false then
        spec_receiver_loop P rx (spec_loop_step P rx r2 e) es else r2).s
    by_cases hc : r1.activated = true ∧ r1.fc.end_capture = false
    · have hc2 : r2.activated = true ∧ r2.s.end_capture = false := by
        rw [← ha, ← h.end_eq]
        exact hc
      rw [if_pos hc, if_pos hc2]
      obtain ⟨hstep, hact⟩ := loop_step_sim P rx h ha e
      exact ih (loop_step P rx r1 e) (spec_loop_step P rx r2 e) hstep hact
    · have hc2 : ¬ (r2.activated = true ∧ r2.s.end_capture = false) := by
        rw [← ha, ← h.end_eq]
        exact hc
      rw [if_neg hc, if_neg hc2]
      exact h

theorem init_sim (P : DxParams) (rx : dxwifi_receiver) :
    SimInv P rx (init_frame_controller rx) spec_init := by
  refine ⟨rfl, rfl, rfl, rfl, rfl, rfl, rfl, ?_, rfl, rfl, rfl⟩
  intro n hn
  simp [init_frame_controller] at hn

theorem capture_sim (P : DxParams) (rx : dxwifi_receiver)
    (events : List capture_event) :
    SimInv P rx (receiver_activate_capture P rx events)
      (spec_capture P rx events) := by
  simp only [receiver_activate_capture, spec_capture]
  exact dump_sim P rx (receiver_loop_sim P rx events
    { fc := init_frame_controller rx, activated := true }
    { s := spec_init, activated := true } (init_sim P rx) rfl)


theorem spec_flush_go_bytes_plain (P : DxParams) (rx : dxwifi_receiver)
    (hnoise : rx.add_noise = false) :
    ∀ (l : List spec_frame) (e : Int),
    (spec_flush_go P rx e l).bytes = (l.map Prod.snd).flatten := by
  intro l
  induction l with
  | nil => intro e; rfl
  | cons kp l ih =>
    intro e
    rcases kp with ⟨k, p⟩
    show (spec_flush_go P rx e ((k, p) :: l)).bytes = _
    rw [spec_flush_go]
    have hgap : ¬ (rx.ordered = true ∧ e ≠ k ∧ rx.add_noise = true) := by
      rintro ⟨-, -, hn⟩
      rw [hnoise] at hn
      exact Bool.false_ne_true hn
    simp only [if_neg hgap]
    show [] ++ p ++ (spec_flush_go P rx (k + 1) l).bytes = _
    rw [ih (k + 1)]
    simp

theorem spec_flush_bytes_plain (P : DxParams) (rx : dxwifi_receiver)
    (hnoise : rx.add_noise = false) (gen : List spec_frame) :
    (spec_flush P rx gen).bytes = ((specSortGen gen).map Prod.snd).flatten := by
  unfold spec_flush
  cases hs : specSortGen gen with
  | nil => simp
  | cons kp rest =>
    rcases kp with ⟨k, p⟩
    rw [spec_flush_go_bytes_plain P rx hnoise]

theorem specSortGen_sorted (gen : List spec_frame) :
    (specSortGen gen).Pairwise (fun a b => a.1 ≤ b.1) := by
  unfold specSortGen
  exact List.sorted_insertionSort (fun a b => a.1 ≤ b.1) gen

theorem specSortGen_pairwise_lt (gen : List spec_frame)
    (hnd : (gen.map Prod.fst).Nodup) :
    (specSortGen gen).Pairwise (fun a b => a.1 < b.1) := by
  have hperm : List.Perm ((specSortGen gen).map Prod.fst) (gen.map Prod.fst) := by
    unfold specSortGen
    exact (List.perm_insertionSort (fun a b => a.1 ≤ b.1) gen).map Prod.fst
  have hnd2 : ((specSortGen gen).map Prod.fst).Nodup := hperm.nodup_iff.mpr hnd
  have hne : (specSortGen gen).Pairwise (fun a b => a.1 ≠ b.1) :=
    List.pairwise_map.mp hnd2
  have hle := specSortGen_sorted gen
  exact (hle.and hne).imp (fun hab => lt_of_le_of_ne hab.1 hab.2)

theorem flush_go_totals (P : DxParams) (rx : dxwifi_receiver)
    (hord : rx.ordered = true) (hnoise : rx.add_noise = true) :
    ∀ (l : List spec_frame) (e : Int),
    l.Pairwise (fun a b => a.1 < b.1) → (∀ x ∈ l, e ≤ x.1) →
    0 ≤ (spec_flush_go P rx e l).lost ∧
      ((spec_flush_go P rx e l).noise : Int)
        = (spec_flush_go P rx e l).lost * (P.payloadBlockSize : Int) := by
  intro l
  induction l with
  | nil =>
    intro e _ _
    simp [spec_flush_go]
  | cons kp l ih =>
    intro e hpw hlb
    rcases kp with ⟨k, p⟩
    have hek : e ≤ k := hlb (k, p) (List.mem_cons_self _ _)
    have hpw2 := (List.pairwise_cons.mp hpw).2
    have hhead := (List.pairwise_cons.mp hpw).1
    have hlb2 : ∀ x ∈ l, k + 1 ≤ x.1 := by
      intro x hx
      have := hhead x hx
      omega
    obtain ⟨ihl, ihn⟩ := ih (k + 1) hpw2 hlb2
    rw [spec_flush_go]
    by_cases hne : e ≠ k
    · have hlt : e < k := lt_of_le_of_ne hek hne
      have hpos : (0 : Int) ≤ k - e := by omega
      rw [if_pos (⟨hord, hne, hnoise⟩ : rx.ordered = true ∧ e ≠ k ∧ rx.add_noise = true),
        if_pos (⟨hord, hne, hnoise⟩ : rx.ordered = true ∧ e ≠ k ∧ rx.add_noise = true),
        if_pos (⟨hord, hne⟩ : rx.ordered = true ∧ e ≠ k)]
      refine ⟨?_, ?_⟩
      · show 0 ≤ k - e + (spec_flush_go P rx (k + 1) l).lost
        omega
      · show (((k - e).toNat * P.payloadBlockSize
            + (spec_flush_go P rx (k + 1) l).noise : Nat) : Int)
          = (k - e + (spec_flush_go P rx (k + 1) l).lost) * (P.payloadBlockSize : Int)
        push_cast
        rw [Int.toNat_of_nonneg hpos, ihn]
        ring
    · have hno3 : ¬ (rx.ordered = true ∧ e ≠ k ∧ rx.add_noise = true) := by
        rintro ⟨-, hne2, -⟩
        exact hne hne2
      have hno2 : ¬ (rx.ordered = true ∧ e ≠ k) := by
        rintro ⟨-, hne2⟩
        exact hne hne2
      rw [if_neg hno3, if_neg hno3, if_neg hno2]
      refine ⟨?_, ?_⟩
      · show 0 ≤ 0 + (spec_flush_go P rx (k + 1) l).lost
        omega
      · show (((0 : Nat) + (spec_flush_go P rx (k + 1) l).noise : Nat) : Int)
          = (0 + (spec_flush_go P rx (k + 1) l).lost) * (P.payloadBlockSize : Int)
        push_cast
        rw [ihn]
        ring

theorem spec_flush_totals (P : DxParams) (rx : dxwifi_receiver)
    (hord : rx.ordered = true) (hnoise : rx.add_noise = true)
    (gen : List spec_frame) (hnd : (gen.map Prod.fst).Nodup) :
    0 ≤ (spec_flush P rx gen).lost ∧
      ((spec_flush P rx gen).noise : Int)
        = (spec_flush P rx gen).lost * (P.payloadBlockSize : Int) := by
  have hpw := specSortGen_pairwise_lt gen hnd
  unfold spec_flush
  cases hs : specSortGen gen with
  | nil => simp
  | cons kp rest =>
    rcases kp with ⟨k, p⟩
    rw [hs] at hpw
    refine flush_go_totals P rx hord hnoise ((k, p) :: rest) k hpw ?_
    intro x hx
    rcases List.mem_cons.mp hx with rfl | hx
    · exact le_refl _
    · exact le_of_lt ((List.pairwise_cons.mp hpw).1 x hx)


theorem testBit_byte_add (x y i : Nat) (hx : x < 256) :
    Nat.testBit (x + 256 * y) i = if i < 8 then Nat.testBit x i else Nat.testBit y (i - 8) := by
  rcases Nat.lt_or_ge i 8 with h | h
  · rw [if_pos h, Nat.testBit_to_div_mod, Nat.testBit_to_div_mod]
    have h256 : (256 : Nat) * y = 2 ^ i * (2 * (2 ^ (7 - i) * y)) := by
      have e0 : 2 * (2 ^ (7 - i) * y) = 2 ^ ((7 - i) + 1) * y := by
        rw [pow_succ']
        ring
      have e1 : (7 - i) + 1 = 8 - i := by omega
      have e2 : i + (8 - i) = 8 := by omega
      rw [e0, e1, ← mul_assoc, ← pow_add, e2]
      norm_num
    rw [h256, Nat.add_mul_div_left _ _ (Nat.pos_pow_of_pos i (by norm_num)),
        Nat.add_mul_mod_self_left]
  · rw [if_neg (by omega), Nat.testBit_to_div_mod, Nat.testBit_to_div_mod]
    have h2i : (2 : Nat) ^ i = 256 * 2 ^ (i - 8) := by
      have e1 : (256 : Nat) = 2 ^ 8 := by norm_num
      have e2 : 8 + (i - 8) = i := by omega
      rw [e1, ← pow_add, e2]
    rw [h2i, ← Nat.div_div_eq_div_mul,
        Nat.add_mul_div_left _ _ (by norm_num : (0:Nat) < 256),
        Nat.div_eq_of_lt hx, Nat.zero_add]

theorem hamming_split (w a b c d : Nat) (ha : a < 256) (hb : b < 256) :
    popCountW (8 + w) (Nat.xor (a + 256 * c) (b + 256 * d))
      = popCountW 8 (Nat.xor a b) + popCountW w (Nat.xor c d) := by
  have t1 : ∀ u v j : Nat, (Nat.xor u v).testBit j = ((u.testBit j).xor (v.testBit j)) := by
    intro u v j
    exact Nat.testBit_xor u v j
  unfold popCountW
  rw [List.range_add, List.countP_append, List.countP_map]
  refine congrArg₂ (· + ·) ?_ ?_
  · refine List.countP_congr ?_
    intro i hi
    have hilt : i < 8 := List.mem_range.mp hi
    have hbit : (Nat.xor (a + 256 * c) (b + 256 * d)).testBit i
        = (Nat.xor a b).testBit i := by
      rw [t1, t1, testBit_byte_add a c i ha,
          testBit_byte_add b d i hb, if_pos hilt, if_pos hilt]
    rw [hbit]
  · refine List.countP_congr ?_
    intro i _
    show (Nat.xor (a + 256 * c) (b + 256 * d)).testBit (8 + i) = true
      ↔ (Nat.xor c d).testBit i = true
    have hbit : (Nat.xor (a + 256 * c) (b + 256 * d)).testBit (8 + i)
        = (Nat.xor c d).testBit i := by
      rw [t1, t1, testBit_byte_add a c (8 + i) ha,
          testBit_byte_add b d (8 + i) hb, if_neg (by omega), if_neg (by omega)]
      have h8 : 8 + i - 8 = i := by omega
      rw [h8]
    rw [hbit]

theorem popCountW_ext (m w z : Nat) (hz : z < 2 ^ m) (hmw : m ≤ w) :
    popCountW w z = popCountW m z := by
  unfold popCountW
  have hw : w = m + (w - m) := by omega
  rw [hw, List.range_add, List.countP_append, List.countP_map]
  have : List.countP ((fun i => z.testBit i) ∘ fun x => m + x) (List.range (w - m)) = 0 := by
    rw [List.countP_eq_zero]
    intro i _
    show ¬ z.testBit (m + i) = true
    rw [Nat.testBit_lt_two_pow (lt_of_lt_of_le hz (Nat.pow_le_pow_right (by norm_num) (by omega)))]
    exact Bool.false_ne_true
  rw [this, Nat.add_zero]

theorem byteAt_lt {f : List Nat} (hb : ∀ b ∈ f, b < 256) (i : Nat) :
    byteAt f i < 256 := by
  unfold byteAt
  rcases Nat.lt_or_ge i f.length with h | h
  · rw [List.getD_eq_getElem f 0 h]
    exact hb _ (List.getElem_mem h)
  · rw [List.getD_eq_default f 0 (by omega)]
    norm_num

theorem hamming_pair_eq {x y : List Nat} (hx : ∀ b ∈ x, b < 256)
    (hy : ∀ b ∈ y, b < 256) (o p : Nat) :
    hamming_dist32 (le32 x o) (le32 y p) + hamming_dist32 (le16 x (o + 4)) (le16 y (p + 4))
      = hammingDistBytes (bytesAt x o 6) (bytesAt y p 6) := by
  have hx0 := byteAt_lt hx
  have hy0 := byteAt_lt hy
  unfold hamming_dist32 le32 le16
  have e32 : popCountW 32 (Nat.xor
      (byteAt x o + 256 * (byteAt x (o + 1) + 256 * (byteAt x (o + 2) + 256 * byteAt x (o + 3))))
      (byteAt y p + 256 * (byteAt y (p + 1) + 256 * (byteAt y (p + 2) + 256 * byteAt y (p + 3)))))
      = popCountW 8 (Nat.xor (byteAt x o) (byteAt y p))
      + (popCountW 8 (Nat.xor (byteAt x (o + 1)) (byteAt y (p + 1)))
      + (popCountW 8 (Nat.xor (byteAt x (o + 2)) (byteAt y (p + 2)))
      + popCountW 8 (Nat.xor (byteAt x (o + 3)) (byteAt y (p + 3))))) := by
    rw [show (32 : Nat) = 8 + 24 from rfl,
      hamming_split 24 _ _ _ _ (hx0 o) (hy0 p),
      show (24 : Nat) = 8 + 16 from rfl,
      hamming_split 16 _ _ _ _ (hx0 (o + 1)) (hy0 (p + 1)),
      show (16 : Nat) = 8 + 8 from rfl,
      hamming_split 8 _ _ _ _ (hx0 (o + 2)) (hy0 (p + 2))]
  have hb16x : byteAt x (o + 4) + 256 * byteAt x (o + 5) < 2 ^ 16 := by
    have := hx0 (o + 4)
    have := hx0 (o + 5)
    omega
  have hb16y : byteAt y (p + 4) + 256 * byteAt y (p + 5) < 2 ^ 16 := by
    have := hy0 (p + 4)
    have := hy0 (p + 5)
    omega
  have e16 : popCountW 32 (Nat.xor
      (byteAt x (o + 4) + 256 * byteAt x (o + 5))
      (byteAt y (p + 4) + 256 * byteAt y (p + 5)))
      = popCountW 8 (Nat.xor (byteAt x (o + 4)) (byteAt y (p + 4)))
      + popCountW 8 (Nat.xor (byteAt x (o + 5)) (byteAt y (p + 5))) := by
    have hlt : Nat.xor (byteAt x (o + 4) + 256 * byteAt x (o + 5))
        (byteAt y (p + 4) + 256 * byteAt y (p + 5)) < 2 ^ 16 :=
      Nat.xor_lt_two_pow hb16x hb16y
    rw [popCountW_ext 16 32 _ hlt (by norm_num),
      show (16 : Nat) = 8 + 8 from rfl,
      hamming_split 8 _ _ _ _ (hx0 (o + 4)) (hy0 (p + 4))]
  rw [e32, e16]
  show _ = ((((bytesAt x o 6).zip (bytesAt y p 6)).map
    (fun ab => popCountW 8 (Nat.xor ab.1 ab.2))).sum : Nat)
  have hzip : (bytesAt x o 6).zip (bytesAt y p 6)
      = [(byteAt x (o + 0), byteAt y (p + 0)), (byteAt x (o + 1), byteAt y (p + 1)),
         (byteAt x (o + 2), byteAt y (p + 2)), (byteAt x (o + 3), byteAt y (p + 3)),
         (byteAt x (o + 4), byteAt y (p + 4)), (byteAt x (o + 5), byteAt y (p + 5))] := rfl
  rw [hzip]
  show _ = popCountW 8 (Nat.xor (byteAt x (o + 0)) (byteAt y (p + 0)))
    + (popCountW 8 (Nat.xor (byteAt x (o + 1)) (byteAt y (p + 1)))
    + (popCountW 8 (Nat.xor (byteAt x (o + 2)) (byteAt y (p + 2)))
    + (popCountW 8 (Nat.xor (byteAt x (o + 3)) (byteAt y (p + 3)))
    + (popCountW 8 (Nat.xor (byteAt x (o + 4)) (byteAt y (p + 4)))
    + (popCountW 8 (Nat.xor (byteAt x (o + 5)) (byteAt y (p + 5))) + 0)))))
  have ho : o + 0 = o := by omega
  have hp : p + 0 = p := by omega
  rw [ho, hp]
  omega


theorem sum_flush_totals (P : DxParams) (rx : dxwifi_receiver)
    (hord : rx.ordered = true) (hnoise : rx.add_noise = true) :
    ∀ gens : List (List spec_frame), (∀ g ∈ gens, (g.map Prod.fst).Nodup) →
    (((gens.map (fun g => (spec_flush P rx g).noise)).sum : Nat) : Int)
      = ((gens.map (fun g => (spec_flush P rx g).lost)).sum) * (P.payloadBlockSize : Int) := by
  intro gens
  induction gens with
  | nil => intro _; simp
  | cons g gens ih =>
    intro hnd
    have hg := (spec_flush_totals P rx hord hnoise g (hnd g (List.mem_cons_self _ _))).2
    have hr := ih (fun x hx => hnd x (List.mem_cons_of_mem _ hx))
    simp only [List.map_cons, List.sum_cons]
    rw [Nat.cast_add, hg, hr]
    ring

/-- C1: for every capture with ordered=true and add_noise=false, the byte
sequence written to the sink is, generation by generation in the order the
flushes happened, the concatenation of the payloads of the data frames
received in that flush generation sorted by ascending frame number with ties
broken by insertion order. -/
theorem C1_ordered_sink (P : DxParams) (rx : dxwifi_receiver)
    (events : List capture_event)
    (_hord : rx.ordered = true) (hnoise : rx.add_noise = false) :
    (receiver_activate_capture P rx events).sink =
      ((spec_capture P rx events).gens.map
        (fun g => ((specSortGen g).map Prod.snd).flatten)).flatten := by
  rw [(capture_sim P rx events).sink_eq, spec_sink]
  refine congrArg List.flatten (List.map_congr_left ?_)
  intro g _
  exact spec_flush_bytes_plain P rx hnoise g

/-- C1 witness: a concrete ordered, noiseless capture of four data frames
arriving out of order. -/
theorem C1_ordered_sink_witness :
    rxw_plain.ordered = true ∧ rxw_plain.add_noise = false ∧
    (receiver_activate_capture Pw rxw_plain
        [.batch [wdata 2, wdata 0, wdata 3, wdata 1]]).sink =
      ((spec_capture Pw rxw_plain [.batch [wdata 2, wdata 0, wdata 3, wdata 1]]).gens.map
        (fun g => ((specSortGen g).map Prod.snd).flatten)).flatten :=
  ⟨rfl, rfl, C1_ordered_sink Pw rxw_plain [.batch [wdata 2, wdata 0, wdata 3, wdata 1]] rfl rfl⟩

/-- C2 counterexample: an ordered capture with noise in which frame number 5
is received twice.  On flush the second copy is popped with frame_number
below expected_frame, the gap branch still runs (the code tests inequality,
not excess), no noise is written, and total_blocks_lost drops to -1, so
total_noise_added = total_blocks_lost * payload_block_size fails. -/
theorem C2_counterexample :
    rxw_noise.ordered = true ∧ rxw_noise.add_noise = true ∧
    (receiver_activate_capture Pw rxw_noise
        [.batch [wdata 5, wdata 5]]).rx_stats.total_blocks_lost = -1 ∧
    (receiver_activate_capture Pw rxw_noise
        [.batch [wdata 5, wdata 5]]).rx_stats.total_noise_added = 0 ∧
    ¬ (((receiver_activate_capture Pw rxw_noise
          [.batch [wdata 5, wdata 5]]).rx_stats.total_noise_added : Int)
        = (receiver_activate_capture Pw rxw_noise
            [.batch [wdata 5, wdata 5]]).rx_stats.total_blocks_lost
          * (Pw.payloadBlockSize : Int)) :=
  ⟨rfl, rfl, by decide, by decide, by decide⟩

/-- C2 (amended): during flush in ordered mode the gap branch runs exactly
when the popped frame number differs from expected_frame, writing noise runs
only for positive gaps; the sink is the spec rendering with noise runs at
the gaps, and when the frame numbers within every flush generation are
pairwise distinct, total_noise_added = total_blocks_lost *
payload_block_size at the end of the capture. -/
theorem C2_amended_noise (P : DxParams) (rx : dxwifi_receiver)
    (events : List capture_event)
    (hord : rx.ordered = true) (hnoise : rx.add_noise = true)
    (hnd : ∀ g ∈ (spec_capture P rx events).gens, (g.map Prod.fst).Nodup) :
    (receiver_activate_capture P rx events).sink
      = spec_sink P rx (spec_capture P rx events).gens ∧
    ((receiver_activate_capture P rx events).rx_stats.total_noise_added : Int)
      = (receiver_activate_capture P rx events).rx_stats.total_blocks_lost
          * (P.payloadBlockSize : Int) := by
  have hs := capture_sim P rx events
  refine ⟨hs.sink_eq, ?_⟩
  rw [hs.noise_eq, hs.lost_eq]
  exact sum_flush_totals P rx hord hnoise _ hnd

/-- C2 amended witness: a concrete ordered, noisy capture of frames 0, 1, 3
with pairwise distinct frame numbers. -/
theorem C2_amended_noise_witness :
    rxw_noise.ordered = true ∧ rxw_noise.add_noise = true ∧
    (∀ g ∈ (spec_capture Pw rxw_noise
        [.batch [wdata 0, wdata 1, wdata 3]]).gens, (g.map Prod.fst).Nodup) ∧
    ((receiver_activate_capture Pw rxw_noise
        [.batch [wdata 0, wdata 1, wdata 3]]).sink
      = spec_sink Pw rxw_noise (spec_capture Pw rxw_noise
          [.batch [wdata 0, wdata 1, wdata 3]]).gens ∧
    ((receiver_activate_capture Pw rxw_noise
        [.batch [wdata 0, wdata 1, wdata 3]]).rx_stats.total_noise_added : Int)
      = (receiver_activate_capture Pw rxw_noise
          [.batch [wdata 0, wdata 1, wdata 3]]).rx_stats.total_blocks_lost
          * (Pw.payloadBlockSize : Int)) :=
  ⟨rfl, rfl, by decide,
    C2_amended_noise Pw rxw_noise [.batch [wdata 0, wdata 1, wdata 3]] rfl rfl (by decide)⟩

/-- C3 (code bug): for a single data frame whose 4-byte FCS does not match
the CRC-32 of its MAC header and payload, the capture ends with bad_crcs = 0
although the claim requires bad_crcs = 1; the payload is still delivered to
the sink.  The source increments bad_crcs with the expression
!crc_valid ? 0 : 1, which counts valid frames instead of invalid ones. -/
theorem C3_bad_crcs_inverted :
    le32 fC3 (caplen fC3 - fcsSize) ≠ crc32 (crc_bytes Pw fC3) ∧
    (receiver_activate_capture Pw rxw_plain [.batch [fC3]]).rx_stats.bad_crcs = 0 ∧
    (receiver_activate_capture Pw rxw_plain [.batch [fC3]]).sink = wpayload 0x11 :=
  ⟨by decide, by decide, by decide⟩

/-- C4 (code bug): a data frame whose 4 FCS bytes hold exactly the CRC-32 of
its MAC header and payload (little endian) is nevertheless recorded with
crc_valid = false, because the source compares the 32-bit CRC against the
single byte *rx_frame.fcs instead of the 32-bit value at the FCS pointer. -/
theorem C4_fcs_one_byte_compare :
    le32 fC4 (caplen fC4 - fcsSize) = crc32 (crc_bytes Pw fC4) ∧
    (process_frame Pw rxw_plain (init_frame_controller rxw_plain) fC4).packet_heap
      = [{ frame_number := 7, data := 0, crc_valid := false }] :=
  ⟨by decide, by decide⟩

/-- C5 counterexample: processing one data frame advances write_index to the
frame caplen 41, which is not a multiple of the payload block size 5. -/
theorem C5_counterexample :
    (process_frame Pw rxw_plain (init_frame_controller rxw_plain)
        fC3).rx_stats.num_packets_processed
      = (init_frame_controller rxw_plain).rx_stats.num_packets_processed + 1 ∧
    ¬ (process_frame Pw rxw_plain (init_frame_controller rxw_plain) fC3).index
        % Pw.payloadBlockSize = 0 :=
  ⟨by decide, by decide⟩

/-- C5 (amended): after a process_frame invocation that appends a data
frame, write_index equals its value after the optional pre-flush plus the
frame caplen (not in general a multiple of the block size), and every heap
node data offset keeps offset + payload_block_size ≤ write_index and lies
strictly below write_index. -/
theorem C5_amended (P : DxParams) (rx : dxwifi_receiver)
    (fc : frame_controller) (f : List Nat)
    (hinv : ∀ n ∈ fc.packet_heap,
      n.data + P.payloadBlockSize ≤ fc.index ∧ n.data < fc.index) :
    (∀ n ∈ (process_frame P rx fc f).packet_heap,
        n.data + P.payloadBlockSize ≤ (process_frame P rx fc f).index ∧
        n.data < (process_frame P rx fc f).index) ∧
    ((process_frame P rx fc f).rx_stats.num_packets_processed
        = fc.rx_stats.num_packets_processed + 1 →
      (process_frame P rx fc f).index
        = (if fc.index + P.payloadBlockSize ≥ fc.pb_size then 0 else fc.index)
            + caplen f) := by
  simp only [process_frame]
  by_cases hv : verify_sender f rx.sender_addr rx.max_hamming_dist = true
  case neg =>
    rw [if_neg hv]
    refine ⟨hinv, ?_⟩
    intro habs
    have hx : fc.rx_stats.num_packets_processed
        = fc.rx_stats.num_packets_processed + 1 := habs
    omega
  case pos =>
    rw [if_pos hv]
    cases hctrl : check_frame_control P f dxwifi_check_threshold with
    | UNKNOWN =>
      refine ⟨hinv, ?_⟩
      intro habs
      have hx : fc.rx_stats.num_packets_processed
          = fc.rx_stats.num_packets_processed + 1 := habs
      omega
    | PREAMBLE =>
      show (∀ n ∈ (handle_frame_control fc .PREAMBLE).packet_heap, _) ∧ _
      unfold handle_frame_control
      by_cases hpr : fc.rx_stats.num_packets_processed > 0
      · rw [if_pos hpr]
        refine ⟨hinv, ?_⟩
        intro habs
        have hx : fc.rx_stats.num_packets_processed
            = fc.rx_stats.num_packets_processed + 1 := habs
        omega
      · rw [if_neg hpr]
        refine ⟨hinv, ?_⟩
        intro habs
        have hx : fc.rx_stats.num_packets_processed
            = fc.rx_stats.num_packets_processed + 1 := habs
        omega
    | EOT =>
      show (∀ n ∈ (handle_frame_control fc .EOT).packet_heap, _) ∧ _
      refine ⟨hinv, ?_⟩
      intro habs
      have hx : fc.rx_stats.num_packets_processed
          = fc.rx_stats.num_packets_processed + 1 := habs
      omega
    | NONE =>
      simp only [reduceCtorEq, ne_eq, not_false_eq_true, not_true_eq_false,
        ite_true, ite_false, if_true, if_false, reduceIte]
      by_cases hps : payload_size f = (P.payloadBlockSize : Int)
      case neg =>
        rw [if_pos hps]
        refine ⟨hinv, ?_⟩
        intro habs
        have hx : fc.rx_stats.num_packets_processed
            = fc.rx_stats.num_packets_processed + 1 := habs
        omega
      case pos =>
        have hpsn : ¬ payload_size f ≠ (P.payloadBlockSize : Int) := not_not_intro hps
        rw [if_neg hpsn]
        have hble : P.payloadBlockSize ≤ caplen f := caplen_of_payload_size P hps
        have hcpos : 0 < caplen f := by
          unfold payload_size macHeaderSize fcsSize at hps
          omega
        by_cases hfull : fc.index + P.payloadBlockSize ≥ fc.pb_size
        · rw [if_pos hfull, if_pos hfull]
          rw [dump_packet_buffer_spec]
          refine ⟨?_, fun _ => rfl⟩
          intro n hn
          simp only [List.nil_append, List.mem_singleton] at hn
          subst hn
          constructor
          · show 0 + P.payloadBlockSize ≤ 0 + caplen f
            omega
          · show 0 < 0 + caplen f
            omega
        · rw [if_neg hfull, if_neg hfull]
          refine ⟨?_, fun _ => rfl⟩
          intro n hn
          rw [List.mem_append] at hn
          rcases hn with hn | hn
          · have := hinv n hn
            constructor
            · show n.data + P.payloadBlockSize ≤ fc.index + caplen f
              omega
            · show n.data < fc.index + caplen f
              omega
          · rcases List.mem_singleton.mp hn with rfl
            constructor
            · show fc.index + P.payloadBlockSize ≤ fc.index + caplen f
              omega
            · show fc.index < fc.index + caplen f
              omega

/-- C5 amended witness: the invariant holds of the freshly initialised
controller and is preserved by processing a concrete data frame. -/
theorem C5_amended_witness :
    (∀ n ∈ (init_frame_controller rxw_plain).packet_heap,
        n.data + Pw.payloadBlockSize ≤ (init_frame_controller rxw_plain).index ∧
        n.data < (init_frame_controller rxw_plain).index) ∧
    ((∀ n ∈ (process_frame Pw rxw_plain (init_frame_controller rxw_plain) fC3).packet_heap,
        n.data + Pw.payloadBlockSize
          ≤ (process_frame Pw rxw_plain (init_frame_controller rxw_plain) fC3).index ∧
        n.data < (process_frame Pw rxw_plain (init_frame_controller rxw_plain) fC3).index) ∧
    ((process_frame Pw rxw_plain (init_frame_controller rxw_plain)
          fC3).rx_stats.num_packets_processed
        = (init_frame_controller rxw_plain).rx_stats.num_packets_processed + 1 →
      (process_frame Pw rxw_plain (init_frame_controller rxw_plain) fC3).index
        = (if (init_frame_controller rxw_plain).index + Pw.payloadBlockSize
              ≥ (init_frame_controller rxw_plain).pb_size then 0
           else (init_frame_controller rxw_plain).index) + caplen fC3)) :=
  ⟨by intro n hn; simp [init_frame_controller] at hn,
   C5_amended Pw rxw_plain (init_frame_controller rxw_plain) fC3
     (by intro n hn; simp [init_frame_controller] at hn)⟩


theorem count_control_go (P : DxParams) (hpe : P.preambleByte ≠ P.eotByte) :
    ∀ (l : List Nat) (acc : ControlCounts),
    l.foldl
      (fun acc b =>
        if b = P.preambleByte then { acc with preamble := acc.preamble + 1 }
        else if b = P.eotByte then { acc with eot := acc.eot + 1 }
        else acc) acc
      = ⟨acc.preamble + l.count P.preambleByte, acc.eot + l.count P.eotByte⟩ := by
  intro l
  induction l with
  | nil =>
    intro acc
    simp
  | cons b l ih =>
    intro acc
    rw [List.foldl_cons]
    by_cases hb : b = P.preambleByte
    · subst hb
      rw [if_pos rfl, ih]
      simp only [ControlCounts.mk.injEq]
      refine ⟨?_, ?_⟩
      · rw [List.count_cons_self]
        omega
      · rw [List.count_cons_of_ne (Ne.symm hpe)]
    · rw [if_neg hb]
      by_cases he : b = P.eotByte
      · subst he
        rw [if_pos rfl, ih]
        simp only [ControlCounts.mk.injEq]
        refine ⟨?_, ?_⟩
        · rw [List.count_cons_of_ne hpe]
        · rw [List.count_cons_self]
          omega
      · rw [if_neg he, ih]
        simp only [ControlCounts.mk.injEq]
        refine ⟨?_, ?_⟩
        · rw [List.count_cons_of_ne (fun hx => hb hx.symm)]
        · rw [List.count_cons_of_ne (fun hx => he hx.symm)]

theorem count_control_bytes_eq (P : DxParams) (hpe : P.preambleByte ≠ P.eotByte)
    (l : List Nat) :
    count_control_bytes P l = ⟨l.count P.preambleByte, l.count P.eotByte⟩ := by
  unfold count_control_bytes
  rw [count_control_go P hpe l ⟨0, 0⟩]
  simp

/-- C6: verify_sender accepts a frame exactly when one of the three 6-byte
MAC address fields (at MAC offsets 4, 10 and 16) is within bitwise Hamming
distance strictly below the threshold of the expected 6-byte address; when
all three distances reach the threshold the frame is rejected. -/
theorem C6_hamming_accept (f expected : List Nat) (t : Nat)
    (hf : ∀ b ∈ f, b < 256) (he : ∀ b ∈ expected, b < 256) :
    verify_sender f expected t = true ↔
      (hammingDistBytes (bytesAt f (itLen f + 4) 6) (bytesAt expected 0 6) < t ∨
       hammingDistBytes (bytesAt f (itLen f + 10) 6) (bytesAt expected 0 6) < t ∨
       hammingDistBytes (bytesAt f (itLen f + 16) 6) (bytesAt expected 0 6) < t) := by
  simp only [verify_sender]
  have h8 : itLen f + 8 = (itLen f + 4) + 4 := by omega
  have h14 : itLen f + 14 = (itLen f + 10) + 4 := by omega
  have h20 : itLen f + 20 = (itLen f + 16) + 4 := by omega
  have h04 : (4 : Nat) = 0 + 4 := by omega
  rw [h8, h14, h20, h04,
    hamming_pair_eq hf he (itLen f + 4) 0,
    hamming_pair_eq hf he (itLen f + 10) 0,
    hamming_pair_eq hf he (itLen f + 16) 0]
  simp only [Bool.or_eq_true, decide_eq_true_eq]
  exact or_assoc

/-- C6 witness: a concrete frame whose addr2 field matches the expected
address exactly. -/
theorem C6_hamming_accept_witness :
    (∀ b ∈ fC3, b < 256) ∧ (∀ b ∈ rxw_plain.sender_addr, b < 256) ∧
    (verify_sender fC3 rxw_plain.sender_addr 1 = true ↔
      (hammingDistBytes (bytesAt fC3 (itLen fC3 + 4) 6)
          (bytesAt rxw_plain.sender_addr 0 6) < 1 ∨
       hammingDistBytes (bytesAt fC3 (itLen fC3 + 10) 6)
          (bytesAt rxw_plain.sender_addr 0 6) < 1 ∨
       hammingDistBytes (bytesAt fC3 (itLen fC3 + 16) 6)
          (bytesAt rxw_plain.sender_addr 0 6) < 1)) :=
  ⟨by decide, by decide,
    C6_hamming_accept fC3 rxw_plain.sender_addr 1 (by decide) (by decide)⟩

/-- C7: the classifier returns NONE exactly when the computed payload size
equals the data block size; on a control-sized payload it counts the two
sentinel bytes over the first payload_block_size payload bytes and returns
EOT when the EOT fraction exceeds 0.66, else PREAMBLE when the preamble
fraction does, else UNKNOWN; any other payload size yields UNKNOWN. -/
theorem C7_classifier (P : DxParams) (f : List Nat)
    (hpe : P.preambleByte ≠ P.eotByte)
    (hcb : P.controlFrameSize ≠ P.payloadBlockSize) :
    (check_frame_control P f dxwifi_check_threshold = .NONE
      ↔ payload_size f = (P.payloadBlockSize : Int)) ∧
    (payload_size f = (P.controlFrameSize : Int) →
      check_frame_control P f dxwifi_check_threshold =
        (if ((payload_bytes P f).count P.eotByte : ℚ) / (P.controlFrameSize : ℚ)
            > dxwifi_check_threshold then .EOT
         else if ((payload_bytes P f).count P.preambleByte : ℚ) / (P.controlFrameSize : ℚ)
            > dxwifi_check_threshold then .PREAMBLE
         else .UNKNOWN)) ∧
    (payload_size f ≠ (P.controlFrameSize : Int) →
     payload_size f ≠ (P.payloadBlockSize : Int) →
      check_frame_control P f dxwifi_check_threshold = .UNKNOWN) := by
  simp only [check_frame_control]
  by_cases hc : payload_size f = (P.controlFrameSize : Int)
  · rw [if_pos hc]
    rw [count_control_bytes_eq P hpe]
    have hq : ((payload_size f : Int) : ℚ) = (P.controlFrameSize : ℚ) := by
      rw [hc]
      push_cast
      rfl
    refine ⟨?_, ?_, ?_⟩
    · constructor
      · intro hres
        exfalso
        by_cases h1 : ((bytesAt f (payloadStart f) P.payloadBlockSize).count P.eotByte : ℚ)
            / ((payload_size f : Int) : ℚ) > dxwifi_check_threshold
        · rw [if_pos h1] at hres
          exact dxwifi_control_frame_t.noConfusion hres
        · rw [if_neg h1] at hres
          by_cases h2 : ((bytesAt f (payloadStart f) P.payloadBlockSize).count P.preambleByte : ℚ)
              / ((payload_size f : Int) : ℚ) > dxwifi_check_threshold
          · rw [if_pos h2] at hres
            exact dxwifi_control_frame_t.noConfusion hres
          · rw [if_neg h2] at hres
            exact dxwifi_control_frame_t.noConfusion hres
      · intro hbs
        exfalso
        rw [hbs] at hc
        exact hcb (by exact_mod_cast hc.symm)
    · intro _
      rw [hq]
      rfl
    · intro hnc _
      exact absurd hc hnc
  · rw [if_neg hc]
    refine ⟨?_, ?_, ?_⟩
    · by_cases hb : payload_size f = (P.payloadBlockSize : Int)
      · rw [if_neg (not_not_intro hb)]
        simp [hb]
      · rw [if_pos hb]
        constructor
        · intro hres
          exact absurd hres (dxwifi_control_frame_t.noConfusion)
        · intro hbs
          exact absurd hbs hb
    · intro hcc
      exact absurd hcc hc
    · intro _ hnb
      rw [if_pos hnb]

/-- C7 witness: the concrete data frame fC3, whose payload size matches the
block size, together with the concrete parameter set. -/
theorem C7_classifier_witness :
    Pw.preambleByte ≠ Pw.eotByte ∧ Pw.controlFrameSize ≠ Pw.payloadBlockSize ∧
    ((check_frame_control Pw fC3 dxwifi_check_threshold = .NONE
      ↔ payload_size fC3 = (Pw.payloadBlockSize : Int)) ∧
    (payload_size fC3 = (Pw.controlFrameSize : Int) →
      check_frame_control Pw fC3 dxwifi_check_threshold =
        (if ((payload_bytes Pw fC3).count Pw.eotByte : ℚ) / (Pw.controlFrameSize : ℚ)
            > dxwifi_check_threshold then .EOT
         else if ((payload_bytes Pw fC3).count Pw.preambleByte : ℚ) / (Pw.controlFrameSize : ℚ)
            > dxwifi_check_threshold then .PREAMBLE
         else .UNKNOWN)) ∧
    (payload_size fC3 ≠ (Pw.controlFrameSize : Int) →
     payload_size fC3 ≠ (Pw.payloadBlockSize : Int) →
      check_frame_control Pw fC3 dxwifi_check_threshold = .UNKNOWN)) :=
  ⟨by decide, by decide, C7_classifier Pw fC3 (by decide) (by decide)⟩

/-- C8: a preamble arriving when packets have been processed sets
end_capture (and the loop, which runs only while end_capture is false,
exits); a preamble before any data only sets preamble_recv and doing so
twice equals doing it once; an EOT only sets eot_reached and leaves
end_capture unchanged, so EOT alone never terminates the loop. -/
theorem C8_control_flow :
    (∀ fc : frame_controller, fc.rx_stats.num_packets_processed > 0 →
      handle_frame_control fc .PREAMBLE
        = { fc with end_capture := true, preamble_recv := true }) ∧
    (∀ fc : frame_controller, fc.rx_stats.num_packets_processed = 0 →
      handle_frame_control fc .PREAMBLE = { fc with preamble_recv := true } ∧
      handle_frame_control (handle_frame_control fc .PREAMBLE) .PREAMBLE
        = handle_frame_control fc .PREAMBLE) ∧
    (∀ fc : frame_controller,
      handle_frame_control fc .EOT = { fc with eot_reached := true } ∧
      (handle_frame_control fc .EOT).end_capture = fc.end_capture) ∧
    (∀ (P : DxParams) (rx : dxwifi_receiver) (s : run_state),
      s.fc.end_capture = true →
      ∀ events : List capture_event, receiver_loop P rx s events = s) := by
  refine ⟨?_, ?_, ?_, ?_⟩
  · intro fc h
    unfold handle_frame_control
    rw [if_pos h]
  · intro fc h
    have hng : ¬ fc.rx_stats.num_packets_processed > 0 := by omega
    have h1 : handle_frame_control fc .PREAMBLE = { fc with preamble_recv := true } := by
      unfold handle_frame_control
      rw [if_neg hng]
    refine ⟨h1, ?_⟩
    rw [h1]
    unfold handle_frame_control
    rw [if_neg (show ¬ ({ fc with preamble_recv := true } :
        frame_controller).rx_stats.num_packets_processed > 0 from hng)]
  · intro fc
    exact ⟨rfl, rfl⟩
  · intro P rx s h events
    cases events with
    | nil => rfl
    | cons e es =>
      show (if s.activated = true ∧ s.fc.end_capture = false then _ else s) = s
      rw [if_neg (by simp [h])]

/-- C8 witness: concrete controllers before and after processing data, and a
stopped loop state that ignores a further timeout event. -/
theorem C8_control_flow_witness :
    fcW1.rx_stats.num_packets_processed > 0 ∧
    handle_frame_control fcW1 .PREAMBLE
      = { fcW1 with end_capture := true, preamble_recv := true } ∧
    (init_frame_controller rxw_plain).rx_stats.num_packets_processed = 0 ∧
    handle_frame_control (init_frame_controller rxw_plain) .PREAMBLE
      = { init_frame_controller rxw_plain with preamble_recv := true } ∧
    (handle_frame_control (init_frame_controller rxw_plain) .EOT).end_capture
      = (init_frame_controller rxw_plain).end_capture ∧
    sW.fc.end_capture = true ∧
    receiver_loop Pw rxw_plain sW [.timeout] = sW :=
  ⟨by decide, C8_control_flow.1 fcW1 (by decide), rfl,
    (C8_control_flow.2.1 (init_frame_controller rxw_plain) rfl).1,
    (C8_control_flow.2.2.1 (init_frame_controller rxw_plain)).2, rfl,
    C8_control_flow.2.2.2 Pw rxw_plain sW rfl [.timeout]⟩

/-- C9: a sender-rejected frame changes the controller only by incrementing
packets_dropped; a frame classified UNKNOWN leaves the controller entirely
unchanged; and a frame classified NONE always has payload size equal to the
block size, so the defensive payload-size branch of process_frame (which
would already have updated the radiotap decode) is unreachable. -/
theorem C9_frame_effects (P : DxParams) (rx : dxwifi_receiver)
    (fc : frame_controller) (f : List Nat) :
    (verify_sender f rx.sender_addr rx.max_hamming_dist = false →
      process_frame P rx fc f
        = { fc with rx_stats :=
            { fc.rx_stats with packets_dropped := fc.rx_stats.packets_dropped + 1 } }) ∧
    (verify_sender f rx.sender_addr rx.max_hamming_dist = true →
      check_frame_control P f dxwifi_check_threshold = .UNKNOWN →
      process_frame P rx fc f = fc) ∧
    (check_frame_control P f dxwifi_check_threshold = .NONE →
      payload_size f = (P.payloadBlockSize : Int)) := by
  refine ⟨?_, ?_, ?_⟩
  · intro hv
    simp only [process_frame]
    rw [if_neg (by simp [hv])]
  · intro hv hctrl
    simp only [process_frame]
    rw [if_pos hv, hctrl, if_pos rfl]
  · intro hres
    by_contra hnb
    simp only [check_frame_control] at hres
    by_cases hc : payload_size f = (P.controlFrameSize : Int)
    · rw [if_pos hc] at hres
      by_cases h1 : ((count_control_bytes P
            (bytesAt f (payloadStart f) P.payloadBlockSize)).eot : ℚ)
          / ((payload_size f : Int) : ℚ) > dxwifi_check_threshold
      · rw [if_pos h1] at hres
        exact dxwifi_control_frame_t.noConfusion hres
      · rw [if_neg h1] at hres
        by_cases h2 : ((count_control_bytes P
              (bytesAt f (payloadStart f) P.payloadBlockSize)).preamble : ℚ)
            / ((payload_size f : Int) : ℚ) > dxwifi_check_threshold
        · rw [if_pos h2] at hres
          exact dxwifi_control_frame_t.noConfusion hres
        · rw [if_neg h2] at hres
          exact dxwifi_control_frame_t.noConfusion hres
    · rw [if_neg hc, if_pos hnb] at hres
      exact dxwifi_control_frame_t.noConfusion hres

/-- C9 witness: a concrete sender-rejected frame and a concrete accepted
frame of unexpected payload size. -/
theorem C9_frame_effects_witness :
    verify_sender frej rxw_plain.sender_addr rxw_plain.max_hamming_dist = false ∧
    process_frame Pw rxw_plain (init_frame_controller rxw_plain) frej
      = { init_frame_controller rxw_plain with rx_stats :=
          { (init_frame_controller rxw_plain).rx_stats with packets_dropped :=
            (init_frame_controller rxw_plain).rx_stats.packets_dropped + 1 } } ∧
    verify_sender funk rxw_plain.sender_addr rxw_plain.max_hamming_dist = true ∧
    check_frame_control Pw funk dxwifi_check_threshold = .UNKNOWN ∧
    process_frame Pw rxw_plain (init_frame_controller rxw_plain) funk
      = init_frame_controller rxw_plain :=
  ⟨by decide,
    (C9_frame_effects Pw rxw_plain (init_frame_controller rxw_plain) frej).1 (by decide),
    by decide, by decide,
    (C9_frame_effects Pw rxw_plain (init_frame_controller rxw_plain) funk).2.1
      (by decide) (by decide)⟩

/-- C10: the capture always ends with one unconditional dump_packet_buffer
(which reads the root-slot frame number before the first pop tests
emptiness), and dumping a controller whose heap is empty writes nothing to
the sink, leaves every statistic unchanged and only resets write_index
to 0. -/
theorem C10_final_flush (P : DxParams) (rx : dxwifi_receiver)
    (events : List capture_event) (fc : frame_controller)
    (h : fc.packet_heap = []) :
    receiver_activate_capture P rx events
      = dump_packet_buffer P rx
          (receiver_loop P rx
            { fc := init_frame_controller rx, activated := true } events).fc ∧
    dump_packet_buffer P rx fc = { fc with index := 0 } := by
  refine ⟨rfl, ?_⟩
  rw [dump_packet_buffer_spec]
  have habs : absGen P fc = [] := by
    rw [absGen, h]
    rfl
  rw [habs]
  have hz : spec_flush P rx ([] : List spec_frame)
      = { bytes := [], noise := 0, lost := 0, wlen := 0 } := rfl
  rw [hz]
  simp [← h]

/-- C10 witness: the freshly initialised controller has an empty heap, and
both conjuncts hold for it with an empty event list. -/
theorem C10_final_flush_witness :
    (init_frame_controller rxw_plain).packet_heap = [] ∧
    (receiver_activate_capture Pw rxw_plain []
      = dump_packet_buffer Pw rxw_plain
          (receiver_loop Pw rxw_plain
            { fc := init_frame_controller rxw_plain, activated := true } []).fc ∧
    dump_packet_buffer Pw rxw_plain (init_frame_controller rxw_plain)
      = { init_frame_controller rxw_plain with index := 0 }) :=
  ⟨rfl, C10_final_flush Pw rxw_plain [] (init_frame_controller rxw_plain) rfl⟩


end DxWifi
